import Mathlib

set_option linter.unusedVariables false

/-!
Verification development for the flapmyport_api service (src/main.go).

The two algorithmic cores are embedded shallowly:

* the review aggregator (`Flapper.Review`, lines 325-390, together with
  `Host.FromDB` / `Host.UpdateFromDB` / `PortView.FromDB` /
  `PortView.updateFromDB`), and
* the flap-chart renderer (`Flapper.FlapChart`, lines 456-556).

Modelling conventions:

* `time.Time` values are modelled by their Unix-second integer (the chart
  code only ever uses `.Unix()`; the review code only copies and compares
  instants, for which the integer order is faithful).
* Go nil-able pointer fields (`*string`, `*time.Time`) are modelled by
  `Option`; dereferencing a nil pointer is a runtime panic, modelled by
  returning `none` from the enclosing function.
* Go `panic` calls and out-of-range slice indexing are modelled by `none`
  results (`Option`-valued functions).
* The chart's `float64` arithmetic (`cent`, `floatX`) is modelled at two
  levels.  `centOf` / `chartIndex` compute the exact (infinite-precision)
  rational values of the source expressions, with Go's `int(floatX)`
  truncation as `ratTrunc`; they serve as the reference point of the
  rounding model, and are used directly only in concrete scenarios whose
  computations are exact in binary64.  `RoundedIndex` relates a window
  and a record time to EVERY bucket index the compiled program can
  compute: for `start < end`, any truncation of a rational within
  relative error `floatSlack` (1/1000 - far above the at most four
  binary64 roundings involved, each below 2^-52) of the exact index;
  for the degenerate `start == end` window, any integer at all, because
  the program then truncates the float NaN produced by `0.0 / 0.0`,
  whose conversion to `int` Go leaves implementation-dependent (it is
  observed as 0 on arm64 and as -2^63 on amd64, the build target the
  repository's README documents, where the subsequent slice access
  panics).  `buildTimeLineR` / `FlapChartR` run the renderer's loops
  over an arbitrary such index assignment.
* The SQL layer is out of scope: the row list `Flapper.FetchFromDB`
  produces (resp. the flap list produced by `Flapper.PortFlaps`) is the
  input of the embedded functions.
-/

/-- Caption stored in the DB for an interface that is up
(src/main.go const `ifStatusUpCaption = "up"`). -/
def ifStatusUpCaption : String := "up"

/-- Width in buckets/pixels of a flap chart (src/main.go const
`flapChartWidth = 333`). -/
def flapChartWidth : Nat := 333

/-- A DB row of the `ports` table (src/main.go `type PortRow`).
`Sid` is carried along but never used by the embedded logic. -/
structure PortRow where
  Id : Int
  Sid : String
  Time : Int
  TimeTicks : Int
  Ipaddress : String
  Hostname : Option String
  IfIndex : Int
  IfName : Option String
  IfAlias : Option String
  IfOperStatus : String
deriving DecidableEq, Repr

/-- One port of the review response (src/main.go `type PortView`). -/
structure PortView where
  IfIndex : Int
  IfName : String
  IfAlias : String
  IfOperStatus : String
  FlapCount : Int
  FirstFlapTime : Option Int
  LastFlapTime : Option Int
  IsBlacklisted : Bool
deriving DecidableEq, Repr

/-- src/main.go `PortView.FromDB` (lines 171-188).  In Go this fills in a
freshly allocated zero-value `PortView{}`; the zero values (`""` for
`IfAlias`, `false` for `IsBlacklisted`) are made explicit here. -/
def PortView.FromDB (r : PortRow) : PortView :=
  { IfIndex := r.IfIndex
    IfName := match r.IfName with
      | none => "<ifIndex " ++ toString r.IfIndex ++ ">"
      | some n => n
    IfAlias := match r.IfAlias with
      | none => ""
      | some a => a
    IfOperStatus := r.IfOperStatus
    FlapCount := 1
    FirstFlapTime := some r.Time
    LastFlapTime := some r.Time
    IsBlacklisted := false }

/-- src/main.go `PortView.updateFromDB` (lines 190-204).  `none` models
the `panic("Wrong usage of PortView.UpdateFromDB")` on an `ifIndex`
mismatch, and the nil-pointer dereference panic when `*p.FirstFlapTime`
(resp. `*p.LastFlapTime`) would be dereferenced while nil.  The Go code
evaluates `r.Time.Before(*p.FirstFlapTime)` first and only dereferences
`p.LastFlapTime` in the `else if`. -/
def PortView.updateFromDB (p : PortView) (r : PortRow) : Option PortView :=
  if p.IfIndex ≠ r.IfIndex then none
  else
    let p1 : PortView := { p with FlapCount := p.FlapCount + 1 }
    let p2 : PortView := match r.IfAlias with
      | none => p1
      | some a => { p1 with IfAlias := a }
    match p2.FirstFlapTime with
    | none => none
    | some t1 =>
      if r.Time < t1 then some { p2 with FirstFlapTime := some r.Time }
      else match p2.LastFlapTime with
        | none => none
        | some t2 =>
          if t2 < r.Time then some { p2 with LastFlapTime := some r.Time }
          else some p2

/-- One host of the review response (src/main.go `type Host`). -/
structure Host where
  Name : String
  Ipaddress : String
  Ports : List PortView
deriving DecidableEq, Repr

/-- src/main.go `Host.FromDB` (lines 212-222): overwrites the receiver's
address and name and APPENDS a new port to the existing `Ports` slice
(the receiver is a fresh `&Host{}` at two of the three call sites, but
not necessarily at the `host.Ipaddress == ""` branch of `Review`). -/
def Host.FromDB (h : Host) (r : PortRow) : Host :=
  { Name := match r.Hostname with
      | none => ""
      | some n => n
    Ipaddress := r.Ipaddress
    Ports := h.Ports ++ [PortView.FromDB r] }

/-- The port-list scan of src/main.go `Host.UpdateFromDB` (lines 233-243):
the first port with matching `IfIndex` is updated in place; when no port
matches, a new `PortView` is created from the row and appended. -/
def updatePortList (r : PortRow) : List PortView → Option (List PortView)
  | [] => some [PortView.FromDB r]
  | p :: ps =>
    if p.IfIndex = r.IfIndex then
      (p.updateFromDB r).map (· :: ps)
    else
      (updatePortList r ps).map (p :: ·)

/-- src/main.go `Host.UpdateFromDB` (lines 224-244).  `none` models the
`panic("Wrong usage of Host.UpdateFromDB")` on an address mismatch (and a
panic propagated from `PortView.updateFromDB`).  The host name is
refreshed from the row on every update, resetting to `""` when the row's
`Hostname` is nil. -/
def Host.UpdateFromDB (h : Host) (r : PortRow) : Option Host :=
  if h.Ipaddress ≠ r.Ipaddress then none
  else
    (updatePortList r h.Ports).map fun ps =>
      { h with
        Name := match r.Hostname with
          | none => ""
          | some n => n
        Ports := ps }

/-- Window metadata of the review response (src/main.go `type Params`). -/
structure Params where
  TimeStart : Option Int
  TimeEnd : Option Int
  FirstFlapTime : Option Int
  LastFlapTime : Option Int
  OldestFlapID : Int
deriving DecidableEq, Repr

/-- The review response (src/main.go `type ReviewResult`). -/
structure ReviewResult where
  Params : Params
  Hosts : List Host
deriving DecidableEq, Repr

/-- The per-row bookkeeping at the top of the `Review` loop body
(src/main.go lines 361-369): `OldestFlapID` is set from the row only
while it is still `0`, `FirstFlapTime` only while it is still nil, and
`LastFlapTime` on every row. -/
def updateParams (p : Params) (r : PortRow) : Params :=
  { p with
    OldestFlapID := if p.OldestFlapID = 0 then r.Id else p.OldestFlapID
    FirstFlapTime := match p.FirstFlapTime with
      | none => some r.Time
      | some t => some t
    LastFlapTime := some r.Time }

/-- The `for _, portRow := range f.FetchFromDB(...)` loop of
src/main.go `Flapper.Review` (lines 359-384), as a fold over the row
list.  The accumulator is the result under construction plus the current
host; an empty `Ipaddress` on the current host plays the role of "no
current host yet", exactly as in the Go code. -/
def reviewLoop (res : ReviewResult) (host : Host) : List PortRow → Option (ReviewResult × Host)
  | [] => some (res, host)
  | r :: rest =>
    let res1 : ReviewResult := { res with Params := updateParams res.Params r }
    if host.Ipaddress = "" then
      reviewLoop res1 (host.FromDB r) rest
    else if host.Ipaddress = r.Ipaddress then
      match host.UpdateFromDB r with
      | none => none
      | some h => reviewLoop res1 h rest
    else
      reviewLoop { res1 with Hosts := res1.Hosts ++ [host] } (Host.FromDB ⟨"", "", []⟩ r) rest

/-- The result value `Review` starts from (src/main.go lines 349-355):
empty host list, the request window echoed into `Params`, and zero/nil
flap metadata. -/
def initReview (startTime endTime : Int) : ReviewResult :=
  { Params :=
      { TimeStart := some startTime
        TimeEnd := some endTime
        FirstFlapTime := none
        LastFlapTime := none
        OldestFlapID := 0 }
    Hosts := [] }

/-- The post-loop sealing step of `Review` (src/main.go lines 385-387):
the current host is appended to the result iff its address is
non-empty. -/
def sealHosts (out : ReviewResult × Host) : ReviewResult :=
  if out.2.Ipaddress ≠ "" then { out.1 with Hosts := out.1.Hosts ++ [out.2] } else out.1

/-- src/main.go `Flapper.Review` (lines 325-390) on an already-fetched
row list (the SQL query and `FetchFromDB` are the out-of-scope storage
collaborator).  `none` models an aborting panic. -/
def Review (startTime endTime : Int) (rows : List PortRow) : Option ReviewResult :=
  (reviewLoop (initReview startTime endTime) ⟨"", "", []⟩ rows).map sealHosts

/-- A flap event of one port (src/main.go `type Flap`). -/
structure Flap where
  Time : Int
  IfOperStatus : String
deriving DecidableEq, Repr

/-- An RGBA color (the `color.RGBA` values used by the chart). -/
structure Color where
  r : Nat
  g : Nat
  b : Nat
  a : Nat
deriving DecidableEq, Repr

/-- src/main.go `ColorUp`. -/
def ColorUp : Color := ⟨10, 178, 38, 255⟩

/-- src/main.go `ColorUpState`. -/
def ColorUpState : Color := ⟨125, 212, 139, 255⟩

/-- src/main.go `ColorDown`. -/
def ColorDown : Color := ⟨212, 57, 57, 255⟩

/-- src/main.go `ColorDownState`. -/
def ColorDownState : Color := ⟨239, 106, 106, 255⟩

/-- src/main.go `ColorFlapping`. -/
def ColorFlapping : Color := ⟨255, 128, 0, 255⟩

/-- src/main.go `ColorUnknown`. -/
def ColorUnknown : Color := ⟨200, 200, 200, 255⟩

/-- src/main.go `FlapChart` local constant `EnumUnknown = 0`. -/
def EnumUnknown : Nat := 0

/-- src/main.go `FlapChart` local constant `EnumUp = 1`. -/
def EnumUp : Nat := 1

/-- src/main.go `FlapChart` local constant `EnumDown = 2`. -/
def EnumDown : Nat := 2

/-- src/main.go `FlapChart` local constant `EnumFlappingUp = 3`. -/
def EnumFlappingUp : Nat := 3

/-- src/main.go `FlapChart` local constant `EnumFlappingDown = 4`. -/
def EnumFlappingDown : Nat := 4

/-- Go's `int(floatX)` conversion (truncation toward zero) applied to an
exact rational: the numerator is T-divided by the denominator. -/
def ratTrunc (q : ℚ) : Int := q.num.tdiv q.den

/-- The exact (infinite-precision) value of the chart's bucket length
`cent := float64(intervalSeconds) / (flapChartWidth - 1)` (src/main.go
lines 471-472), with `intervalSeconds = q.End.Unix() - q.Start.Unix()`.
The binary64 value the program computes is related to this reference
value through `RoundedIndex`. -/
def centOf (qStart qEnd : Int) : ℚ :=
  ((qEnd - qStart : Int) : ℚ) / ((flapChartWidth : ℚ) - 1)

/-- The exact (infinite-precision) value of the bucket index of one flap
record (src/main.go lines 496-498): `secondsFromStart := flap.Time.Unix()
- q.Start.Unix(); floatX := float64(secondsFromStart) / cent; x :=
int(floatX)`.  The indices the compiled program can produce are the `x`
with `RoundedIndex qStart qEnd t x`; this exact value is used directly
only where the float computation is exact. -/
def chartIndex (qStart : Int) (cent : ℚ) (t : Int) : Int :=
  ratTrunc (((t - qStart : Int) : ℚ) / cent)

/-- The per-flap loop of src/main.go `FlapChart` (lines 486-515): seed the
carry-over `status` once from the first record (to the OPPOSITE of its
own status), then classify each record's bucket.  Indexing `timeLine[x]`
outside the slice bounds is a Go runtime panic, modelled by `none`. -/
def buildTimeLine (qStart : Int) (cent : ℚ) (timeLine : List Nat) (status : Nat) :
    List Flap → Option (List Nat × Nat)
  | [] => some (timeLine, status)
  | flap :: rest =>
    let status1 : Nat :=
      if status = EnumUnknown then
        if flap.IfOperStatus = ifStatusUpCaption then EnumDown else EnumUp
      else status
    let x : Int := chartIndex qStart cent flap.Time
    if h : 0 ≤ x ∧ x.toNat < timeLine.length then
      let val := timeLine.get ⟨x.toNat, h.2⟩
      let newVal : Nat :=
        if val = EnumUnknown then
          if flap.IfOperStatus = ifStatusUpCaption then EnumUp else EnumDown
        else
          if flap.IfOperStatus = ifStatusUpCaption then EnumFlappingUp else EnumFlappingDown
      buildTimeLine qStart cent (timeLine.set x.toNat newVal) status1 rest
    else none

/-- The "Fill timeline with colors" loop of src/main.go `FlapChart`
(lines 518-548), threading the carry-over `status` left to right.  The
final catch-all branch mirrors Go's `switch` without `default`: an
unexpected enum leaves the zero-value color and the status unchanged
(unreachable for timelines produced by `buildTimeLine`). -/
def colorize (status : Nat) : List Nat → List Color
  | [] => []
  | e :: rest =>
    if e = EnumUnknown then
      (if status = EnumUp then ColorUpState
       else if status = EnumDown then ColorDownState
       else ColorUnknown) :: colorize status rest
    else if e = EnumUp then ColorUp :: colorize EnumUp rest
    else if e = EnumDown then ColorDown :: colorize EnumDown rest
    else if e = EnumFlappingUp then ColorFlapping :: colorize EnumUp rest
    else if e = EnumFlappingDown then ColorFlapping :: colorize EnumDown rest
    else ⟨0, 0, 0, 0⟩ :: colorize status rest

/-- The record-loop stage of src/main.go `FlapChart` on an
already-fetched flap list: `timeLine := make([]int, flapChartWidth)`
(all `EnumUnknown`) and `status := EnumUnknown` (lines 474-515). -/
def timeLineOf (qStart qEnd : Int) (flaps : List Flap) : Option (List Nat × Nat) :=
  buildTimeLine qStart (centOf qStart qEnd) (List.replicate flapChartWidth EnumUnknown)
    EnumUnknown flaps

/-- src/main.go `Flapper.FlapChart` (lines 456-556) on an already-fetched
flap list (`PortFlaps` is the storage collaborator): the color line that
the function paints column by column into the PNG surface.  `none`
models an aborting panic (out-of-range bucket index). -/
def FlapChart (qStart qEnd : Int) (flaps : List Flap) : Option (List Color) :=
  (timeLineOf qStart qEnd flaps).map fun out => colorize out.2 out.1

/-- The effect of the per-record bucket classification (src/main.go lines
500-514) on one bucket, iterated over the statuses of the records that
land in that bucket. -/
def applyHits (v : Nat) : List String → Nat
  | [] => v
  | s :: rest =>
    applyHits
      (if v = EnumUnknown then
        (if s = ifStatusUpCaption then EnumUp else EnumDown)
      else
        (if s = ifStatusUpCaption then EnumFlappingUp else EnumFlappingDown))
      rest

/-- A concrete `PortView` used by witnesses. -/
def pW8 : PortView := ⟨1, "eth0", "old", "up", 1, some 10, some 20, false⟩

/-- A concrete row whose time lies inside the witness port's bounds. -/
def rW8 : PortRow := ⟨2, "s", 15, 0, "A", none, 1, none, none, "down"⟩

/-- A concrete row carrying a present-but-empty alias. -/
def rW9 : PortRow := ⟨2, "s", 15, 0, "A", none, 1, none, some "", "down"⟩

/-- A concrete row carrying no alias (nil pointer). -/
def rW9n : PortRow := ⟨2, "s", 15, 0, "A", none, 1, none, none, "down"⟩

/-- Both observed-time pointers of every port of a host are set (they are
nil only on a zero-value `PortView`, which the review fold never keeps). -/
def PortsOK (h : Host) : Prop :=
  ∀ p ∈ h.Ports, p.FirstFlapTime.isSome ∧ p.LastFlapTime.isSome

/-- Rows exhibiting the C6 counterexample: the first record carries id 0,
the second id 5. -/
def rowsC6 : List PortRow :=
  [⟨0, "s", 10, 0, "A", none, 1, none, none, "up"⟩,
   ⟨5, "s", 20, 0, "A", none, 1, none, none, "down"⟩]

/-- The zero value of `ReviewResult`, used as a `getD` default in
witnesses. -/
def emptyReviewResult : ReviewResult := ⟨⟨none, none, none, none, 0⟩, []⟩

/-- Rows used by the C6 witness: nonzero leading id. -/
def rowsC6w : List PortRow :=
  [⟨3, "s", 10, 0, "A", none, 1, none, none, "up"⟩,
   ⟨4, "s", 20, 0, "A", none, 1, none, none, "down"⟩]

/-- Adjacent-duplicate erasure relative to a previous value: the list of
run heads the review fold seals as host addresses.  `prev` plays the role
of the current host's address, the aggregator's only grouping state. -/
def eraseAdj (prev : String) : List String → List String
  | [] => []
  | a :: l => if a = prev then eraseAdj prev l else a :: eraseAdj a l

/-- The last element of a list, or `prev` for the empty list. -/
def lastD (prev : String) : List String → String
  | [] => prev
  | a :: l => lastD a l

/-- Rows exhibiting the C5 counterexample: the empty device address
occurs in two runs separated by address X, yet gets no host entry. -/
def rowsC5c : List PortRow :=
  [⟨1, "s", 10, 0, "", none, 1, none, none, "up"⟩,
   ⟨2, "s", 20, 0, "X", none, 2, none, none, "up"⟩,
   ⟨3, "s", 30, 0, "", none, 3, none, none, "up"⟩]

/-- Rows used by the C5 witness: address A in two runs separated by B. -/
def rowsC5w : List PortRow :=
  [⟨1, "s", 10, 0, "A", none, 1, none, none, "up"⟩,
   ⟨2, "s", 20, 0, "B", none, 1, none, none, "up"⟩,
   ⟨3, "s", 30, 0, "A", none, 1, none, none, "up"⟩]

/-- The grouping invariant the spec assumes of sorted input (section 3):
every element's later occurrences are contiguous — whenever an element
recurs, it recurs immediately. -/
def Grouped : List String → Prop
  | [] => True
  | a :: l => Grouped l ∧ (a ∈ l → l.head? = some a)

/-- The device addresses in order of first appearance, each exactly once
— the spec's description of the host order `Aggregate` must produce
(section 8). -/
def firstAppearanceOrder : List String → List String
  | [] => []
  | a :: l => a :: firstAppearanceOrder (l.filter (fun x => x != a))
termination_by l => l.length
decreasing_by
  simp only [List.length_cons]
  exact Nat.lt_succ_of_le (List.length_filter_le _ _)

/-- Total flap count of a host: the sum of `FlapCount` over its ports. -/
def portsFlapSum (h : Host) : Int := (h.Ports.map (·.FlapCount)).sum

/-- Total flap count over the hosts with a given address. -/
def hostsFlapSumAt (A : String) : List Host → Int
  | [] => 0
  | h :: t => (if h.Ipaddress = A then portsFlapSum h else 0) + hostsFlapSumAt A t

/-- Rows exhibiting the C7 counterexample: two records with the empty
device address followed by one record for address A, sorted by address
(the empty string sorts first). -/
def rowsC7c : List PortRow :=
  [⟨1, "s", 10, 0, "", none, 1, none, none, "up"⟩,
   ⟨2, "s", 20, 0, "", none, 2, none, none, "up"⟩,
   ⟨3, "s", 30, 0, "A", none, 3, none, none, "up"⟩]

/-- Rows used by the C7 witness: two records for one host and port. -/
def rowsC7w : List PortRow :=
  [⟨1, "s", 10, 0, "A", none, 1, none, none, "up"⟩,
   ⟨2, "s", 20, 0, "A", none, 1, none, none, "down"⟩]

/-- A generous upper bound on the accumulated relative rounding error of
the chart's float computation.  The compiled expression
`float64(secondsFromStart) / (float64(intervalSeconds) / 332.0)` performs
at most four binary64 roundings (two int64-to-float64 conversions, two
divisions), each with relative error below 2^-52 under IEEE-754
round-to-nearest, so the accumulated relative error is below 2^-49 and a
fortiori below this slack. -/
def floatSlack : ℚ := 1/1000

/-- The bucket indices the compiled program can produce for a record at
time `t` in the window `[qStart, qEnd]`.  For `qStart < qEnd` these are
the truncations of any rational within relative error `floatSlack` of the
exact index (every IEEE-754 evaluation qualifies).  For the degenerate
`qStart = qEnd` window the in-window record time equals the window
instant, the program computes `int(0.0 / 0.0) = int(NaN)`, and the Go
specification makes the result implementation-dependent: any integer is
admissible (0 is observed on arm64, -2^63 on amd64). -/
def RoundedIndex (qStart qEnd t x : Int) : Prop :=
  if qStart < qEnd then
    ∃ y : ℚ, 0 ≤ y ∧
      (((t - qStart : Int) : ℚ) / centOf qStart qEnd) * (1 - floatSlack) ≤ y ∧
      y ≤ (((t - qStart : Int) : ℚ) / centOf qStart qEnd) * (1 + floatSlack) ∧
      x = ratTrunc y
  else True

/-- The per-flap loop of src/main.go `FlapChart` (lines 486-515) over an
arbitrary bucket-index assignment `ix` (applied to each record's time),
abstracting the float computation whose admissible results are described
by `RoundedIndex`.  Otherwise identical to `buildTimeLine`: indexing
`timeLine[x]` outside the slice bounds is a Go runtime panic, modelled by
`none`. -/
def buildTimeLineR (ix : Int → Int) (timeLine : List Nat) (status : Nat) :
    List Flap → Option (List Nat × Nat)
  | [] => some (timeLine, status)
  | flap :: rest =>
    let status1 : Nat :=
      if status = EnumUnknown then
        if flap.IfOperStatus = ifStatusUpCaption then EnumDown else EnumUp
      else status
    let x : Int := ix flap.Time
    if h : 0 ≤ x ∧ x.toNat < timeLine.length then
      let val := timeLine.get ⟨x.toNat, h.2⟩
      let newVal : Nat :=
        if val = EnumUnknown then
          if flap.IfOperStatus = ifStatusUpCaption then EnumUp else EnumDown
        else
          if flap.IfOperStatus = ifStatusUpCaption then EnumFlappingUp else EnumFlappingDown
      buildTimeLineR ix (timeLine.set x.toNat newVal) status1 rest
    else none

/-- src/main.go `Flapper.FlapChart` over an arbitrary bucket-index
assignment (the float-aware counterpart of `FlapChart`): the color line
painted into the PNG surface, or `none` for an aborting panic. -/
def FlapChartR (ix : Int → Int) (flaps : List Flap) : Option (List Color) :=
  (buildTimeLineR ix (List.replicate flapChartWidth EnumUnknown) EnumUnknown flaps).map
    fun out => colorize out.2 out.1

/-- The exact rational value of the binary64 number nearest `25.0/332.0`
(the chart's `cent` for a 25-second window); certified by the half-ulp
bounds in `chartIndex_float_end_cex`. -/
def cTilde : ℚ := 5426023647434333 / 72057594037927936

/-- The exact rational value of the binary64 number nearest
`25.0 / cTilde` (the chart's `floatX` for a record at `time = end` of a
25-second window): 331.99999999999994..., strictly below 332; certified
by the half-ulp bounds in `chartIndex_float_end_cex`. -/
def yTilde : ℚ := 5840605766746111 / 17592186044416

/-- The value Go's amd64 code generation produces for `int64(NaN)`
(the README documents `GOARCH=amd64` as the build target). -/
def goIntNaN : Int := -9223372036854775808

/-! ### Theorems -/

theorem ratTrunc_eq_floor (q : ℚ) (h : 0 ≤ q) : ratTrunc q = ⌊q⌋ := by
  rw [Rat.floor_def, ratTrunc]
  exact Int.tdiv_eq_ediv (Rat.num_nonneg.2 h) (Int.ofNat_nonneg q.den)

theorem ratTrunc_intCast (n : Int) : ratTrunc ((n : ℚ)) = n := by
  simp [ratTrunc, Rat.num_intCast, Rat.den_intCast]

theorem chartIndex_nonneg (qStart qEnd t : Int) (h1 : qStart ≤ t) (h2 : qStart ≤ qEnd) :
    0 ≤ chartIndex qStart (centOf qStart qEnd) t := by
  have hq : (0 : ℚ) ≤ ((t - qStart : Int) : ℚ) / centOf qStart qEnd := by
    apply div_nonneg
    · exact_mod_cast sub_nonneg.2 h1
    · apply div_nonneg
      · exact_mod_cast sub_nonneg.2 h2
      · norm_num [flapChartWidth]
  rw [chartIndex, ratTrunc_eq_floor _ hq]
  exact Int.floor_nonneg.2 hq

theorem chartIndex_lt (qStart qEnd t : Int) (h1 : qStart ≤ t) (h2 : t ≤ qEnd) :
    chartIndex qStart (centOf qStart qEnd) t < (flapChartWidth : Int) := by
  rcases eq_or_lt_of_le (le_trans h1 h2 : qStart ≤ qEnd) with heq | hlt
  · have ht : t = qStart := le_antisymm (heq ▸ h2) h1
    subst ht
    simp [chartIndex, ratTrunc, Rat.num_intCast]
    norm_num [flapChartWidth]
  · have hI : (0 : ℚ) < ((qEnd - qStart : Int) : ℚ) := by exact_mod_cast sub_pos.2 hlt
    have hcent : (0 : ℚ) < centOf qStart qEnd := by
      rw [centOf]
      apply div_pos hI
      norm_num [flapChartWidth]
    have hq : (0 : ℚ) ≤ ((t - qStart : Int) : ℚ) / centOf qStart qEnd := by
      apply div_nonneg _ (le_of_lt hcent)
      exact_mod_cast sub_nonneg.2 h1
    rw [chartIndex, ratTrunc_eq_floor _ hq]
    rw [Int.floor_lt]
    have hle : ((t - qStart : Int) : ℚ) / centOf qStart qEnd ≤ ((flapChartWidth : ℚ) - 1) := by
      rw [centOf, div_div_eq_mul_div]
      rw [div_le_iff₀ hI]
      have hst : ((t - qStart : Int) : ℚ) ≤ ((qEnd - qStart : Int) : ℚ) := by
        exact_mod_cast sub_le_sub_right h2 qStart
      calc ((t - qStart : Int) : ℚ) * ((flapChartWidth : ℚ) - 1)
          ≤ ((qEnd - qStart : Int) : ℚ) * ((flapChartWidth : ℚ) - 1) := by
            apply mul_le_mul_of_nonneg_right hst
            norm_num [flapChartWidth]
        _ = ((flapChartWidth : ℚ) - 1) * ((qEnd - qStart : Int) : ℚ) := by ring
    refine lt_of_le_of_lt hle ?_
    norm_num [flapChartWidth]

theorem colorize_length (st : Nat) (l : List Nat) : (colorize st l).length = l.length := by
  induction l generalizing st with
  | nil => simp [colorize]
  | cons e rest ih =>
    simp only [colorize]
    split_ifs <;> simp [ih]

theorem buildTimeLine_some (qStart : Int) (cent : ℚ) :
    ∀ (flaps : List Flap) (tl : List Nat) (st : Nat),
      (∀ f ∈ flaps, 0 ≤ chartIndex qStart cent f.Time ∧
        chartIndex qStart cent f.Time < (flapChartWidth : Int)) →
      tl.length = flapChartWidth →
      ∃ out, buildTimeLine qStart cent tl st flaps = some out ∧ out.1.length = flapChartWidth := by
  intro flaps
  induction flaps with
  | nil => intro tl st _ hlen; exact ⟨(tl, st), rfl, hlen⟩
  | cons f fs ih =>
    intro tl st hb hlen
    have hf := hb f (by simp)
    have hcond : 0 ≤ chartIndex qStart cent f.Time ∧
        (chartIndex qStart cent f.Time).toNat < tl.length := by
      refine ⟨hf.1, ?_⟩
      have h2 := hf.2
      omega
    simp only [buildTimeLine]
    rw [dif_pos hcond]
    apply ih
    · intro g hg; exact hb g (by simp [hg])
    · simp [hlen]

theorem buildTimeLine_cons (qStart : Int) (cent : ℚ) (f : Flap) (fs : List Flap)
    (tl : List Nat) (st : Nat) :
    buildTimeLine qStart cent tl st (f :: fs) =
      if h : 0 ≤ chartIndex qStart cent f.Time ∧
          (chartIndex qStart cent f.Time).toNat < tl.length then
        buildTimeLine qStart cent
          (tl.set (chartIndex qStart cent f.Time).toNat
            (if tl.get ⟨(chartIndex qStart cent f.Time).toNat, h.2⟩ = EnumUnknown then
              (if f.IfOperStatus = ifStatusUpCaption then EnumUp else EnumDown)
            else
              (if f.IfOperStatus = ifStatusUpCaption then EnumFlappingUp else EnumFlappingDown)))
          (if st = EnumUnknown then
            (if f.IfOperStatus = ifStatusUpCaption then EnumDown else EnumUp)
          else st)
          fs
      else none := rfl

theorem buildTimeLine_status_stable (qStart : Int) (cent : ℚ) :
    ∀ (flaps : List Flap) (tl : List Nat) (st : Nat) (out : List Nat × Nat),
      buildTimeLine qStart cent tl st flaps = some out → st ≠ EnumUnknown → out.2 = st := by
  intro flaps
  induction flaps with
  | nil =>
    intro tl st out h hst
    simp only [buildTimeLine, Option.some.injEq] at h
    rw [← h]
  | cons f fs ih =>
    intro tl st out h hst
    rw [buildTimeLine_cons] at h
    by_cases hcond : 0 ≤ chartIndex qStart cent f.Time ∧
        (chartIndex qStart cent f.Time).toNat < tl.length
    · rw [dif_pos hcond, if_neg hst] at h
      exact ih _ _ _ h hst
    · rw [dif_neg hcond] at h
      exact absurd h (by simp)

theorem buildTimeLine_seed (qStart : Int) (cent : ℚ) (f : Flap) (fs : List Flap)
    (tl : List Nat) (out : List Nat × Nat)
    (h : buildTimeLine qStart cent tl EnumUnknown (f :: fs) = some out) :
    out.2 = (if f.IfOperStatus = ifStatusUpCaption then EnumDown else EnumUp) := by
  rw [buildTimeLine_cons] at h
  by_cases hcond : 0 ≤ chartIndex qStart cent f.Time ∧
      (chartIndex qStart cent f.Time).toNat < tl.length
  · rw [dif_pos hcond, if_pos rfl] at h
    apply buildTimeLine_status_stable qStart cent fs _ _ _ h
    split_ifs <;> simp [EnumDown, EnumUp, EnumUnknown]
  · rw [dif_neg hcond] at h
    exact absurd h (by simp)

theorem buildTimeLine_bucket (qStart : Int) (cent : ℚ) :
    ∀ (flaps : List Flap) (tl : List Nat) (st : Nat) (out : List Nat × Nat) (b : Nat) (v : Nat),
      buildTimeLine qStart cent tl st flaps = some out → tl[b]? = some v →
      out.1[b]? = some (applyHits v
        ((flaps.filter fun f => chartIndex qStart cent f.Time == (b : Int)).map
          (·.IfOperStatus))) := by
  intro flaps
  induction flaps with
  | nil =>
    intro tl st out b v h hv
    simp only [buildTimeLine, Option.some.injEq] at h
    rw [← h]
    simpa [applyHits] using hv
  | cons f fs ih =>
    intro tl st out b v h hv
    rw [buildTimeLine_cons] at h
    by_cases hcond : 0 ≤ chartIndex qStart cent f.Time ∧
        (chartIndex qStart cent f.Time).toNat < tl.length
    · rw [dif_pos hcond] at h
      by_cases hx : chartIndex qStart cent f.Time = (b : Int)
      · have hxb : (chartIndex qStart cent f.Time).toNat = b := by omega
        have hblen : b < tl.length := by rw [← hxb]; exact hcond.2
        have hget : tl.get ⟨(chartIndex qStart cent f.Time).toNat, hcond.2⟩ = v := by
          rw [List.get_eq_getElem]
          rw [List.getElem?_eq_some_iff] at hv
          obtain ⟨hb2, hval⟩ := hv
          simp [hxb, hval]
        rw [hget] at h
        have hsetw : ∀ w : Nat,
            (tl.set (chartIndex qStart cent f.Time).toNat w)[b]? = some w := by
          intro w
          rw [hxb]
          exact List.getElem?_set_self hblen
        have hres := ih _ _ _ b _ h (hsetw _)
        rw [hres]
        have hfilter : ((f :: fs).filter fun g => chartIndex qStart cent g.Time == (b : Int)) =
            f :: (fs.filter fun g => chartIndex qStart cent g.Time == (b : Int)) := by
          rw [List.filter_cons_of_pos]
          simpa using hx
        rw [hfilter]
        simp [applyHits]
      · have hxb : (chartIndex qStart cent f.Time).toNat ≠ b := by omega
        have hsetw : ∀ w : Nat,
            (tl.set (chartIndex qStart cent f.Time).toNat w)[b]? = some v := by
          intro w
          rw [List.getElem?_set_ne hxb]
          exact hv
        have hres := ih _ _ _ b _ h (hsetw _)
        rw [hres]
        have hfilter : ((f :: fs).filter fun g => chartIndex qStart cent g.Time == (b : Int)) =
            (fs.filter fun g => chartIndex qStart cent g.Time == (b : Int)) := by
          rw [List.filter_cons_of_neg]
          simpa using hx
        rw [hfilter]
    · rw [dif_neg hcond] at h
      exact absurd h (by simp)

theorem applyHits_ne_unknown (s : String) (v : Nat) (hv : v ≠ EnumUnknown) :
    (if v = EnumUnknown then (if s = ifStatusUpCaption then EnumUp else EnumDown)
     else (if s = ifStatusUpCaption then EnumFlappingUp else EnumFlappingDown)) ≠ EnumUnknown := by
  rw [if_neg hv]
  split_ifs <;> simp [EnumFlappingUp, EnumFlappingDown, EnumUnknown]

theorem applyHits_flapping (v : Nat) (hv : v ≠ EnumUnknown) :
    ∀ (l : List String) (g : String), l.getLast? = some g →
      applyHits v l = (if g = ifStatusUpCaption then EnumFlappingUp else EnumFlappingDown) := by
  intro l
  induction l generalizing v with
  | nil => intro g hg; simp at hg
  | cons s rest ih =>
    intro g hg
    cases rest with
    | nil =>
      simp at hg
      subst hg
      simp only [applyHits, if_neg hv]
    | cons s2 rest2 =>
      rw [List.getLast?_cons_cons] at hg
      simp only [applyHits]
      refine ih _ ?_ g hg
      rw [if_neg hv]
      split_ifs <;> simp [EnumFlappingUp, EnumFlappingDown, EnumUnknown]

theorem applyHits_base_ne (s : String) :
    (if (EnumUnknown : Nat) = EnumUnknown then (if s = ifStatusUpCaption then EnumUp else EnumDown)
     else (if s = ifStatusUpCaption then EnumFlappingUp else EnumFlappingDown)) ≠ EnumUnknown := by
  rw [if_pos rfl]
  split_ifs <;> simp [EnumUp, EnumDown, EnumUnknown]

theorem colorize_getElem_flapping :
    ∀ (l : List Nat) (st : Nat) (b : Nat) (v : Nat), l[b]? = some v →
      (v = EnumFlappingUp ∨ v = EnumFlappingDown) →
      (colorize st l)[b]? = some ColorFlapping := by
  intro l
  induction l with
  | nil => intro st b v hv; simp at hv
  | cons e rest ih =>
    intro st b v hv hflap
    cases b with
    | zero =>
      simp at hv
      subst hv
      rcases hflap with h | h <;> subst h <;>
        simp [colorize, EnumFlappingUp, EnumFlappingDown, EnumUnknown, EnumUp, EnumDown]
    | succ b' =>
      simp only [List.getElem?_cons_succ] at hv
      simp only [colorize]
      split_ifs <;> simpa using ih _ b' v hv hflap

theorem chartIndex_start (qStart : Int) (cent : ℚ) : chartIndex qStart cent qStart = 0 := by
  simp [chartIndex, ratTrunc]

theorem colorize_one_replicate (n : Nat) :
    colorize 1 (List.replicate n 0) = List.replicate n ColorUpState := by
  induction n with
  | zero => simp [colorize]
  | succ k ih =>
    rw [List.replicate_succ, List.replicate_succ]
    simp [colorize, EnumUnknown, EnumUp, EnumDown, ih]

set_option maxRecDepth 4000 in
theorem flapChart_scenarioA :
    FlapChart 0 332 [⟨0, ifStatusUpCaption⟩] = some (ColorUp :: List.replicate 332 ColorUpState) := by
  have hx : chartIndex 0 (centOf 0 332) ((⟨0, ifStatusUpCaption⟩ : Flap).Time) = 0 :=
    chartIndex_start 0 _
  have hcond : 0 ≤ chartIndex 0 (centOf 0 332) ((⟨0, ifStatusUpCaption⟩ : Flap).Time) ∧
      (chartIndex 0 (centOf 0 332) ((⟨0, ifStatusUpCaption⟩ : Flap).Time)).toNat <
        (List.replicate flapChartWidth EnumUnknown).length := by
    rw [hx, List.length_replicate]
    exact ⟨le_refl 0, by decide⟩
  rw [FlapChart, timeLineOf, buildTimeLine_cons, dif_pos hcond]
  rw [List.get_eq_getElem, List.getElem_replicate]
  simp only [hx]
  have hrep : List.replicate flapChartWidth EnumUnknown =
      EnumUnknown :: List.replicate 332 EnumUnknown := by
    rw [show flapChartWidth = 333 from rfl]
    rfl
  rw [hrep]
  simp only [Int.toNat_zero, List.set_cons_zero, buildTimeLine, Option.map_some']
  simp [colorize, EnumUnknown, EnumUp, EnumDown, EnumFlappingUp, EnumFlappingDown,
    ifStatusUpCaption, colorize_one_replicate]

theorem chartIndex_window_bounds (qStart qEnd : Int) (flaps : List Flap)
    (hse : qStart ≤ qEnd) (hw : ∀ f ∈ flaps, qStart ≤ f.Time ∧ f.Time ≤ qEnd) :
    ∀ f ∈ flaps, 0 ≤ chartIndex qStart (centOf qStart qEnd) f.Time ∧
      chartIndex qStart (centOf qStart qEnd) f.Time < (flapChartWidth : Int) := by
  intro f hf
  exact ⟨chartIndex_nonneg _ _ _ (hw f hf).1 hse,
    chartIndex_lt _ _ _ (hw f hf).1 (hw f hf).2⟩

/-- C3: the carry-over status entering the color loop is seeded exactly
once, from the first record overall, to the OPPOSITE of that record's own
status (`EnumDown` for an `up` record, `EnumUp` otherwise); consequently
for the single record `(t = start, up)` the first bucket is painted
`ColorUp` and every later bucket `ColorUpState`. -/
theorem flapChart_seed_opposite (qStart qEnd : Int) (f : Flap) (fs : List Flap)
    (hse : qStart ≤ qEnd)
    (hw : ∀ g ∈ f :: fs, qStart ≤ g.Time ∧ g.Time ≤ qEnd) :
    (timeLineOf qStart qEnd (f :: fs)).map (·.2) =
      some (if f.IfOperStatus = ifStatusUpCaption then EnumDown else EnumUp) ∧
    FlapChart 0 332 [⟨0, ifStatusUpCaption⟩] =
      some (ColorUp :: List.replicate 332 ColorUpState) := by
  constructor
  · obtain ⟨out, hout, hlen⟩ := buildTimeLine_some qStart (centOf qStart qEnd) (f :: fs)
      (List.replicate flapChartWidth EnumUnknown) EnumUnknown
      (chartIndex_window_bounds qStart qEnd (f :: fs) hse hw) (by simp)
    rw [timeLineOf, hout]
    simp only [Option.map_some', Option.some.injEq]
    exact buildTimeLine_seed qStart (centOf qStart qEnd) f fs _ out hout
  · exact flapChart_scenarioA

/-- Witness for C3 at a concrete input: a single `down` record seeds the
carried status to `EnumUp`. -/
theorem flapChart_seed_opposite_witness :
    (timeLineOf 0 10 [⟨0, "down"⟩]).map (·.2) =
      some (if ("down" : String) = ifStatusUpCaption then EnumDown else EnumUp) ∧
    FlapChart 0 332 [⟨0, ifStatusUpCaption⟩] =
      some (ColorUp :: List.replicate 332 ColorUpState) :=
  flapChart_seed_opposite 0 10 ⟨0, "down"⟩ [] (by decide) (by decide)

/-- C4: a bucket that receives two or more records is always classified
as a Flapping variant, chosen only by the LAST such record's own status
(`EnumFlappingUp` for `up`, `EnumFlappingDown` otherwise, even when all
records in the bucket agree), and such a bucket is painted
`ColorFlapping`. -/
theorem flapChart_flapping_bucket (qStart qEnd : Int) (flaps : List Flap) (b : Nat) (g : Flap)
    (hse : qStart ≤ qEnd)
    (hw : ∀ f ∈ flaps, qStart ≤ f.Time ∧ f.Time ≤ qEnd)
    (hhits : 2 ≤ ((flaps.filter fun f =>
      chartIndex qStart (centOf qStart qEnd) f.Time == (b : Int)).length))
    (hlast : (flaps.filter fun f =>
      chartIndex qStart (centOf qStart qEnd) f.Time == (b : Int)).getLast? = some g) :
    (timeLineOf qStart qEnd flaps).map (fun out => out.1[b]?) =
      some (some (if g.IfOperStatus = ifStatusUpCaption then EnumFlappingUp
        else EnumFlappingDown)) ∧
    (FlapChart qStart qEnd flaps).map (fun cl => cl[b]?) = some (some ColorFlapping) := by
  obtain ⟨out, hout, hlen⟩ := buildTimeLine_some qStart (centOf qStart qEnd) flaps
    (List.replicate flapChartWidth EnumUnknown) EnumUnknown
    (chartIndex_window_bounds qStart qEnd flaps hse hw) (by simp)
  have hbpos : b < flapChartWidth := by
    have hne : (flaps.filter fun f =>
        chartIndex qStart (centOf qStart qEnd) f.Time == (b : Int)) ≠ [] := by
      intro hnil
      rw [hnil] at hhits
      simp at hhits
    obtain ⟨f, hf⟩ := List.exists_mem_of_ne_nil _ hne
    obtain ⟨hfmem, hfeq⟩ := List.mem_filter.1 hf
    have hxeq : chartIndex qStart (centOf qStart qEnd) f.Time = (b : Int) := by
      exact_mod_cast beq_iff_eq.1 hfeq
    have := (chartIndex_window_bounds qStart qEnd flaps hse hw f hfmem).2
    rw [hxeq] at this
    exact_mod_cast this
  have hrep : (List.replicate flapChartWidth EnumUnknown)[b]? = some EnumUnknown := by
    rw [List.getElem?_eq_some_iff]
    exact ⟨by simpa using hbpos, by simp⟩
  have hbkt := buildTimeLine_bucket qStart (centOf qStart qEnd) flaps _ _ _ b _ hout hrep
  obtain ⟨s1, t, hst⟩ : ∃ s1 t, ((flaps.filter fun f =>
      chartIndex qStart (centOf qStart qEnd) f.Time == (b : Int)).map (·.IfOperStatus)) =
        s1 :: t := by
    cases hmap : ((flaps.filter fun f =>
        chartIndex qStart (centOf qStart qEnd) f.Time == (b : Int)).map (·.IfOperStatus)) with
    | nil =>
      have hfl := List.map_eq_nil_iff.1 hmap
      rw [hfl] at hhits
      simp at hhits
    | cons a t => exact ⟨a, t, rfl⟩
  obtain ⟨s2, rest, ht⟩ : ∃ s2 rest, t = s2 :: rest := by
    cases ht2 : t with
    | nil =>
      have hlen1 := congrArg List.length hst
      rw [ht2] at hlen1
      simp at hlen1
      omega
    | cons s2 rest => exact ⟨s2, rest, rfl⟩
  have hglast : (s2 :: rest).getLast? = some g.IfOperStatus := by
    have hm : ((flaps.filter fun f =>
        chartIndex qStart (centOf qStart qEnd) f.Time == (b : Int)).map
          (·.IfOperStatus)).getLast? = some g.IfOperStatus := by
      rw [List.getLast?_map, hlast]
      rfl
    rw [hst, ht] at hm
    rw [List.getLast?_cons_cons] at hm
    exact hm
  have hval : applyHits EnumUnknown ((flaps.filter fun f =>
      chartIndex qStart (centOf qStart qEnd) f.Time == (b : Int)).map (·.IfOperStatus)) =
        (if g.IfOperStatus = ifStatusUpCaption then EnumFlappingUp else EnumFlappingDown) := by
    rw [hst, ht]
    simp only [applyHits]
    exact applyHits_flapping _ (applyHits_base_ne s1) (s2 :: rest) g.IfOperStatus hglast
  rw [hval] at hbkt
  constructor
  · rw [timeLineOf, hout]
    simp only [Option.map_some', Option.some.injEq]
    exact hbkt
  · rw [FlapChart, timeLineOf, hout]
    simp only [Option.map_some', Option.some.injEq]
    apply colorize_getElem_flapping out.1 out.2 b _ hbkt
    split_ifs <;> simp

/-- Witness for C4 at a concrete input: two `down` records in bucket 0. -/
theorem flapChart_flapping_bucket_witness :
    (timeLineOf 0 332 [⟨0, "down"⟩, ⟨0, "down"⟩]).map (fun out => out.1[(0 : Nat)]?) =
      some (some (if ("down" : String) = ifStatusUpCaption then EnumFlappingUp
        else EnumFlappingDown)) ∧
    (FlapChart 0 332 [⟨0, "down"⟩, ⟨0, "down"⟩]).map (fun cl => cl[(0 : Nat)]?) =
      some (some ColorFlapping) := by
  have h1 : chartIndex 0 (centOf 0 332) ((⟨0, "down"⟩ : Flap).Time) = 0 :=
    chartIndex_start 0 _
  refine flapChart_flapping_bucket 0 332 [⟨0, "down"⟩, ⟨0, "down"⟩] 0 ⟨0, "down"⟩
    (by decide) (by decide) ?_ ?_
  · simp [List.filter_cons, h1]
  · simp [List.filter_cons, h1]

/-- C8: updating an existing `PortView` moves `FirstFlapTime` back
(keeping `LastFlapTime`) when the new time precedes it, else moves
`LastFlapTime` forward (keeping `FirstFlapTime`) when the new time
follows it, and leaves both bounds unchanged for a time between them. -/
theorem portview_update_time_bounds (p : PortView) (r : PortRow) (t1 t2 : Int) (p2 : PortView)
    (hidx : p.IfIndex = r.IfIndex) (h1 : p.FirstFlapTime = some t1)
    (h2 : p.LastFlapTime = some t2) (hupd : p.updateFromDB r = some p2) :
    (r.Time < t1 → p2.FirstFlapTime = some r.Time ∧ p2.LastFlapTime = some t2) ∧
    (¬ r.Time < t1 → t2 < r.Time → p2.FirstFlapTime = some t1 ∧ p2.LastFlapTime = some r.Time) ∧
    (t1 ≤ r.Time → r.Time ≤ t2 → p2.FirstFlapTime = some t1 ∧ p2.LastFlapTime = some t2) := by
  have hne : ¬ (p.IfIndex ≠ r.IfIndex) := by simp [hidx]
  cases hra : r.IfAlias with
  | none =>
    simp only [PortView.updateFromDB, if_neg hne, hra, h1, h2] at hupd
    split_ifs at hupd with hc1 hc2 <;>
      simp only [Option.some.injEq] at hupd <;> subst hupd
    · exact ⟨fun _ => ⟨rfl, rfl⟩, fun hn _ => absurd hc1 hn, fun ha _ => absurd hc1 (by omega)⟩
    · exact ⟨fun hn => absurd hn hc1, fun _ _ => ⟨rfl, rfl⟩, fun _ hb => absurd hc2 (by omega)⟩
    · exact ⟨fun hn => absurd hn hc1, fun _ hb => absurd hb (by omega), fun _ _ => ⟨rfl, rfl⟩⟩
  | some a =>
    simp only [PortView.updateFromDB, if_neg hne, hra, h1, h2] at hupd
    split_ifs at hupd with hc1 hc2 <;>
      simp only [Option.some.injEq] at hupd <;> subst hupd
    · exact ⟨fun _ => ⟨rfl, rfl⟩, fun hn _ => absurd hc1 hn, fun ha _ => absurd hc1 (by omega)⟩
    · exact ⟨fun hn => absurd hn hc1, fun _ _ => ⟨rfl, rfl⟩, fun _ hb => absurd hc2 (by omega)⟩
    · exact ⟨fun hn => absurd hn hc1, fun _ hb => absurd hb (by omega), fun _ _ => ⟨rfl, rfl⟩⟩

/-- Witness for C8 at a concrete input: a record strictly inside the
known bounds changes neither bound. -/
theorem portview_update_time_bounds_witness :
    ((rW8.Time < 10 → ((pW8.updateFromDB rW8).getD pW8).FirstFlapTime = some rW8.Time ∧
        ((pW8.updateFromDB rW8).getD pW8).LastFlapTime = some 20) ∧
      (¬ rW8.Time < 10 → 20 < rW8.Time →
        ((pW8.updateFromDB rW8).getD pW8).FirstFlapTime = some 10 ∧
        ((pW8.updateFromDB rW8).getD pW8).LastFlapTime = some rW8.Time) ∧
      ((10 : Int) ≤ rW8.Time → rW8.Time ≤ 20 →
        ((pW8.updateFromDB rW8).getD pW8).FirstFlapTime = some 10 ∧
        ((pW8.updateFromDB rW8).getD pW8).LastFlapTime = some 20)) :=
  portview_update_time_bounds pW8 rW8 10 20 ((pW8.updateFromDB rW8).getD pW8)
    (by decide) (by decide) (by decide) (by decide)

/-- C9 (amended): updating an existing `PortView` overwrites the stored
alias whenever the record CARRIES an alias (a non-nil pointer), even when
that alias is the empty string; only a record with an absent (nil) alias
leaves the stored alias unchanged. -/
theorem portview_update_alias (p : PortView) (r : PortRow) (p2 : PortView)
    (hupd : p.updateFromDB r = some p2) :
    (r.IfAlias = none → p2.IfAlias = p.IfAlias) ∧
    (∀ a, r.IfAlias = some a → p2.IfAlias = a) := by
  by_cases hne : p.IfIndex ≠ r.IfIndex
  · simp [PortView.updateFromDB, if_pos hne] at hupd
  · cases hra : r.IfAlias with
    | none =>
      refine ⟨fun _ => ?_, fun a ha => absurd ha (by simp)⟩
      simp only [PortView.updateFromDB, if_neg hne, hra] at hupd
      rcases hf : p.FirstFlapTime with _ | t1
      · simp only [hf] at hupd
        exact absurd hupd (by simp)
      · simp only [hf] at hupd
        rcases hl : p.LastFlapTime with _ | t2
        · simp only [hl] at hupd
          split_ifs at hupd with hc1
          simp only [Option.some.injEq] at hupd
          subst hupd
          rfl
        · simp only [hl] at hupd
          split_ifs at hupd with hc1 hc2 <;>
            simp only [Option.some.injEq] at hupd <;> subst hupd <;> rfl
    | some a0 =>
      refine ⟨fun hnone => absurd hnone (by simp), fun a ha => ?_⟩
      simp only [Option.some.injEq] at ha
      subst ha
      simp only [PortView.updateFromDB, if_neg hne, hra] at hupd
      rcases hf : p.FirstFlapTime with _ | t1
      · simp only [hf] at hupd
        exact absurd hupd (by simp)
      · simp only [hf] at hupd
        rcases hl : p.LastFlapTime with _ | t2
        · simp only [hl] at hupd
          split_ifs at hupd with hc1
          simp only [Option.some.injEq] at hupd
          subst hupd
          rfl
        · simp only [hl] at hupd
          split_ifs at hupd with hc1 hc2 <;>
            simp only [Option.some.injEq] at hupd <;> subst hupd <;> rfl

/-- Witness for C9 (amended) at a concrete input: a nil alias leaves the
stored alias unchanged. -/
theorem portview_update_alias_witness :
    (rW9n.IfAlias = none →
      ((pW8.updateFromDB rW9n).getD pW8).IfAlias = pW8.IfAlias) ∧
    (∀ a, rW9n.IfAlias = some a → ((pW8.updateFromDB rW9n).getD pW8).IfAlias = a) :=
  portview_update_alias pW8 rW9n ((pW8.updateFromDB rW9n).getD pW8) (by decide)

/-- Counterexample to C9 as stated: a record carrying an EMPTY (but
present) alias does NOT leave the stored alias unchanged — it overwrites
it with the empty string. -/
theorem portview_update_alias_cex :
    (pW8.updateFromDB rW9).map (·.IfAlias) = some "" ∧ pW8.IfAlias = "old" := by
  constructor <;> decide

theorem reviewLoop_cons (res : ReviewResult) (host : Host) (r : PortRow) (rest : List PortRow) :
    reviewLoop res host (r :: rest) =
      if host.Ipaddress = "" then
        reviewLoop { res with Params := updateParams res.Params r } (host.FromDB r) rest
      else if host.Ipaddress = r.Ipaddress then
        match host.UpdateFromDB r with
        | none => none
        | some h => reviewLoop { res with Params := updateParams res.Params r } h rest
      else
        reviewLoop { Params := updateParams res.Params r, Hosts := res.Hosts ++ [host] }
          (Host.FromDB ⟨"", "", []⟩ r) rest := rfl

theorem updateFromDB_total (p : PortView) (r : PortRow) (hidx : p.IfIndex = r.IfIndex)
    (hf : p.FirstFlapTime.isSome) (hl : p.LastFlapTime.isSome) :
    ∃ p2, p.updateFromDB r = some p2 ∧ p2.FirstFlapTime.isSome ∧ p2.LastFlapTime.isSome := by
  have hne : ¬ (p.IfIndex ≠ r.IfIndex) := by simp [hidx]
  obtain ⟨t1, h1⟩ := Option.isSome_iff_exists.1 hf
  obtain ⟨t2, h2⟩ := Option.isSome_iff_exists.1 hl
  cases hra : r.IfAlias with
  | none =>
    simp only [PortView.updateFromDB, if_neg hne, hra, h1, h2]
    split_ifs <;> exact ⟨_, rfl, by simp, by simp⟩
  | some a =>
    simp only [PortView.updateFromDB, if_neg hne, hra, h1, h2]
    split_ifs <;> exact ⟨_, rfl, by simp, by simp⟩

theorem updatePortList_total (r : PortRow) :
    ∀ ps : List PortView, (∀ p ∈ ps, p.FirstFlapTime.isSome ∧ p.LastFlapTime.isSome) →
      ∃ ps2, updatePortList r ps = some ps2 ∧
        ∀ p ∈ ps2, p.FirstFlapTime.isSome ∧ p.LastFlapTime.isSome := by
  intro ps
  induction ps with
  | nil =>
    intro _
    exact ⟨[PortView.FromDB r], rfl, by simp [PortView.FromDB]⟩
  | cons p ps ih =>
    intro hok
    by_cases hidx : p.IfIndex = r.IfIndex
    · obtain ⟨p2, hupd, hok2⟩ := updateFromDB_total p r hidx (hok p (by simp)).1 (hok p (by simp)).2
      refine ⟨p2 :: ps, ?_, ?_⟩
      · simp only [updatePortList, if_pos hidx, hupd, Option.map_some']
      · intro x hx
        rcases List.mem_cons.1 hx with hx | hx
        · subst hx; exact hok2
        · exact hok x (by simp [hx])
    · obtain ⟨ps2, hrec, hok2⟩ := ih (fun q hq => hok q (by simp [hq]))
      refine ⟨p :: ps2, ?_, ?_⟩
      · simp only [updatePortList, if_neg hidx, hrec, Option.map_some']
      · intro x hx
        rcases List.mem_cons.1 hx with hx | hx
        · subst hx; exact hok x (by simp)
        · exact hok2 x hx

theorem hostUpdate_total (h : Host) (r : PortRow) (hip : h.Ipaddress = r.Ipaddress)
    (hok : PortsOK h) :
    ∃ h2, h.UpdateFromDB r = some h2 ∧ PortsOK h2 ∧ h2.Ipaddress = h.Ipaddress := by
  have hne : ¬ (h.Ipaddress ≠ r.Ipaddress) := by simp [hip]
  obtain ⟨ps2, hupd, hok2⟩ := updatePortList_total r h.Ports hok
  refine ⟨{ h with
      Name := match r.Hostname with
        | none => ""
        | some n => n
      Ports := ps2 }, ?_, ?_, rfl⟩
  · simp only [Host.UpdateFromDB, if_neg hne, hupd, Option.map_some']
  · intro p hp
    exact hok2 p hp

theorem fromDB_portsOK (h : Host) (r : PortRow) (hok : PortsOK h) : PortsOK (h.FromDB r) := by
  intro p hp
  rcases List.mem_append.1 hp with hp | hp
  · exact hok p hp
  · simp only [List.mem_singleton] at hp
    subst hp
    simp [PortView.FromDB]

theorem reviewLoop_total :
    ∀ (rows : List PortRow) (res : ReviewResult) (host : Host), PortsOK host →
      ∃ out, reviewLoop res host rows = some out := by
  intro rows
  induction rows with
  | nil => intro res host _; exact ⟨(res, host), rfl⟩
  | cons r rest ih =>
    intro res host hok
    rw [reviewLoop_cons]
    by_cases h1 : host.Ipaddress = ""
    · rw [if_pos h1]
      exact ih _ _ (fromDB_portsOK host r hok)
    · rw [if_neg h1]
      by_cases h2 : host.Ipaddress = r.Ipaddress
      · rw [if_pos h2]
        obtain ⟨h3, hupd, hok2, _⟩ := hostUpdate_total host r h2 hok
        rw [hupd]
        exact ih _ _ hok2
      · rw [if_neg h2]
        apply ih
        apply fromDB_portsOK
        intro p hp
        simp at hp

/-- C10: the two defensive panic branches (`Host.UpdateFromDB` and
`PortView.updateFromDB`) and the nil-pointer dereferences they guard are
unreachable from `Review`: aggregation always returns a result, for every
input row list. -/
theorem review_never_panics (startTime endTime : Int) (rows : List PortRow) :
    (Review startTime endTime rows).isSome = true := by
  obtain ⟨out, hout⟩ := reviewLoop_total rows (initReview startTime endTime) ⟨"", "", []⟩
    (fun p hp => by simp at hp)
  rw [Review, hout]
  rfl

theorem reviewLoop_params_step (res : ReviewResult) (host : Host) (r : PortRow)
    (rest : List PortRow) (out : ReviewResult × Host)
    (h : reviewLoop res host (r :: rest) = some out) :
    ∃ res2 host2, reviewLoop res2 host2 rest = some out ∧
      res2.Params = updateParams res.Params r := by
  rw [reviewLoop_cons] at h
  by_cases h1 : host.Ipaddress = ""
  · rw [if_pos h1] at h
    exact ⟨_, _, h, rfl⟩
  · rw [if_neg h1] at h
    by_cases h2 : host.Ipaddress = r.Ipaddress
    · rw [if_pos h2] at h
      cases hupd : host.UpdateFromDB r with
      | none => rw [hupd] at h; exact absurd h (by simp)
      | some h3 => rw [hupd] at h; exact ⟨_, _, h, rfl⟩
    · rw [if_neg h2] at h
      exact ⟨_, _, h, rfl⟩

theorem reviewLoop_last :
    ∀ (rows : List PortRow) (res : ReviewResult) (host : Host) (out : ReviewResult × Host),
      reviewLoop res host rows = some out →
      out.1.Params.LastFlapTime =
        ((rows.getLast?).map (·.Time)).getD res.Params.LastFlapTime := by
  intro rows
  induction rows with
  | nil =>
    intro res host out h
    simp only [reviewLoop, Option.some.injEq] at h
    rw [← h]
    simp
  | cons r rest ih =>
    intro res host out h
    obtain ⟨res2, host2, hrec, hp⟩ := reviewLoop_params_step res host r rest out h
    have := ih res2 host2 out hrec
    cases rest with
    | nil =>
      simp only [List.getLast?_singleton, Option.map_some', Option.getD_some]
      simpa only [hp, List.getLast?_nil, Option.map_none', Option.getD_none,
        updateParams] using this
    | cons r2 t =>
      rw [List.getLast?_cons_cons]
      have hsome : ((r2 :: t).getLast?).isSome := by
        rw [List.getLast?_isSome]
        simp
      obtain ⟨g, hg⟩ := Option.isSome_iff_exists.1 hsome
      rw [hg] at this ⊢
      simpa using this

theorem reviewLoop_oldest :
    ∀ (rows : List PortRow) (res : ReviewResult) (host : Host) (out : ReviewResult × Host),
      reviewLoop res host rows = some out → res.Params.OldestFlapID ≠ 0 →
      out.1.Params.OldestFlapID = res.Params.OldestFlapID := by
  intro rows
  induction rows with
  | nil =>
    intro res host out h _
    simp only [reviewLoop, Option.some.injEq] at h
    rw [← h]
  | cons r rest ih =>
    intro res host out h hnz
    obtain ⟨res2, host2, hrec, hp⟩ := reviewLoop_params_step res host r rest out h
    have hsame : res2.Params.OldestFlapID = res.Params.OldestFlapID := by
      rw [hp, updateParams]
      simp only [if_neg hnz]
    rw [← hsame]
    apply ih res2 host2 out hrec
    rw [hsame]
    exact hnz

theorem sealHosts_params (out : ReviewResult × Host) : (sealHosts out).Params = out.1.Params := by
  rw [sealHosts]
  split <;> rfl

theorem review_some_elim (s e : Int) (rows : List PortRow) (res : ReviewResult)
    (hrev : Review s e rows = some res) :
    ∃ out, reviewLoop (initReview s e) ⟨"", "", []⟩ rows = some out ∧ sealHosts out = res := by
  rw [Review] at hrev
  exact Option.map_eq_some'.1 hrev

/-- C6 (amended): `LastFlapTime` of the review result is the time of the
last record; `OldestFlapID` is the id of the first record PROVIDED that
id is nonzero (the aggregator treats `0` as "still unset", so a leading
record with id 0 is skipped in favor of the first nonzero id); an empty
input yields id 0 and absent first/last times. -/
theorem review_window_metadata (s e : Int) (rows : List PortRow) (res : ReviewResult)
    (hrev : Review s e rows = some res) :
    (rows = [] → res.Params.OldestFlapID = 0 ∧ res.Params.FirstFlapTime = none ∧
      res.Params.LastFlapTime = none) ∧
    (∀ rl, rows.getLast? = some rl → res.Params.LastFlapTime = some rl.Time) ∧
    (∀ r0, rows.head? = some r0 → r0.Id ≠ 0 → res.Params.OldestFlapID = r0.Id) := by
  obtain ⟨out, hout, hseal⟩ := review_some_elim s e rows res hrev
  have hparams : res.Params = out.1.Params := by rw [← hseal, sealHosts_params]
  refine ⟨?_, ?_, ?_⟩
  · intro hnil
    subst hnil
    simp only [reviewLoop, Option.some.injEq] at hout
    rw [hparams, ← hout]
    exact ⟨rfl, rfl, rfl⟩
  · intro rl hl
    rw [hparams, reviewLoop_last rows _ _ out hout, hl]
    rfl
  · intro r0 hh hnz
    cases rows with
    | nil => simp at hh
    | cons r1 rest =>
      simp only [List.head?_cons, Option.some.injEq] at hh
      obtain ⟨res2, host2, hrec, hp⟩ := reviewLoop_params_step _ _ _ _ out hout
      have hset : res2.Params.OldestFlapID = r0.Id := by
        rw [hp, updateParams]
        simp only [initReview, if_true]
        exact congrArg PortRow.Id hh
      rw [hparams, reviewLoop_oldest rest res2 host2 out hrec (by rw [hset]; exact hnz), hset]

/-- Counterexample to C6 as stated: with a first record of id 0,
`OldestFlapID` is NOT the id of the first record — the second record's
id 5 wins. -/
theorem review_oldest_id_cex :
    (Review 0 100 rowsC6).map (·.Params.OldestFlapID) ≠ rowsC6.head?.map (·.Id) ∧
    (Review 0 100 rowsC6).map (·.Params.OldestFlapID) = some 5 ∧
    rowsC6.head?.map (·.Id) = some 0 := by
  refine ⟨?_, ?_, ?_⟩ <;> decide

/-- Witness for C6 (amended) at a concrete input. -/
theorem review_window_metadata_witness :
    ((Review 0 100 rowsC6w).getD emptyReviewResult).Params.LastFlapTime = some 20 ∧
    ((Review 0 100 rowsC6w).getD emptyReviewResult).Params.OldestFlapID = 3 := by
  have h := review_window_metadata 0 100 rowsC6w
    ((Review 0 100 rowsC6w).getD emptyReviewResult) (by decide)
  exact ⟨h.2.1 ⟨4, "s", 20, 0, "A", none, 1, none, none, "down"⟩ (by decide),
    h.2.2 ⟨3, "s", 10, 0, "A", none, 1, none, none, "up"⟩ (by decide) (by decide)⟩

theorem eraseAdj_cons (prev a : String) (l : List String) :
    eraseAdj prev (a :: l) = if a = prev then eraseAdj prev l else a :: eraseAdj a l := rfl

theorem lastD_cons (prev a : String) (l : List String) : lastD prev (a :: l) = lastD a l := rfl

theorem eraseAdj_append :
    ∀ (l m : List String) (prev : String),
      eraseAdj prev (l ++ m) = eraseAdj prev l ++ eraseAdj (lastD prev l) m := by
  intro l
  induction l with
  | nil => intro m prev; simp [eraseAdj, lastD]
  | cons a t ih =>
    intro m prev
    rw [List.cons_append, eraseAdj_cons, eraseAdj_cons, lastD_cons]
    by_cases ha : a = prev
    · rw [if_pos ha, if_pos ha, ih]
      subst ha
      rfl
    · rw [if_neg ha, if_neg ha, ih, List.cons_append]

theorem count_eraseAdj_pos :
    ∀ (l : List String) (prev A : String), prev ≠ A → A ∈ l →
      1 ≤ (eraseAdj prev l).count A := by
  intro l
  induction l with
  | nil => intro prev A _ hmem; simp at hmem
  | cons a t ih =>
    intro prev A hprev hmem
    by_cases ha : a = prev
    · rw [eraseAdj_cons, if_pos ha]
      apply ih prev A hprev
      rcases List.mem_cons.1 hmem with h | h
      · exact absurd (h ▸ ha) hprev.symm
      · exact h
    · rw [eraseAdj_cons, if_neg ha]
      by_cases haA : a = A
      · subst haA
        simp [List.count_cons]
      · rw [List.count_cons]
        have hmem2 : A ∈ t := by
          rcases List.mem_cons.1 hmem with h | h
          · exact absurd h.symm haA
          · exact h
        have := ih a A haA hmem2
        simp only [beq_iff_eq]
        omega

theorem count_eraseAdj_two (prev A b : String) (l1 l2 l3 l4 : List String)
    (hprev : prev ≠ A) (hb : b ≠ A) :
    2 ≤ (eraseAdj prev (l1 ++ A :: (l2 ++ b :: (l3 ++ A :: l4)))).count A := by
  have hsplit : l1 ++ A :: (l2 ++ b :: (l3 ++ A :: l4)) =
      (l1 ++ A :: l2) ++ (b :: (l3 ++ A :: l4)) := by simp
  rw [hsplit, eraseAdj_append, List.count_append]
  have h1 : 1 ≤ (eraseAdj prev (l1 ++ A :: l2)).count A :=
    count_eraseAdj_pos _ prev A hprev (by simp)
  have h2 : 1 ≤ (eraseAdj (lastD prev (l1 ++ A :: l2)) (b :: (l3 ++ A :: l4))).count A := by
    by_cases hbp : b = lastD prev (l1 ++ A :: l2)
    · rw [eraseAdj_cons, if_pos hbp]
      apply count_eraseAdj_pos
      · rw [← hbp]; exact hb
      · simp
    · rw [eraseAdj_cons, if_neg hbp, List.count_cons]
      have := count_eraseAdj_pos (l3 ++ A :: l4) b A hb (by simp)
      simp only [beq_iff_eq]
      omega
  omega

theorem hostUpdate_ip (h : Host) (r : PortRow) (h2 : Host)
    (hupd : h.UpdateFromDB r = some h2) : h2.Ipaddress = h.Ipaddress := by
  rw [Host.UpdateFromDB] at hupd
  split_ifs at hupd with hne
  obtain ⟨ps, hps, heq⟩ := Option.map_eq_some'.1 hupd
  rw [← heq]

theorem reviewLoop_mapIp :
    ∀ (rows : List PortRow) (res : ReviewResult) (host : Host) (out : ReviewResult × Host),
      (∀ r ∈ rows, r.Ipaddress ≠ "") → reviewLoop res host rows = some out →
      (sealHosts out).Hosts.map (·.Ipaddress) =
        res.Hosts.map (·.Ipaddress) ++
        (if host.Ipaddress = "" then [] else [host.Ipaddress]) ++
        eraseAdj host.Ipaddress (rows.map (·.Ipaddress)) := by
  intro rows
  induction rows with
  | nil =>
    intro res host out _ h
    simp only [reviewLoop, Option.some.injEq] at h
    rw [← h]
    by_cases hip : host.Ipaddress = ""
    · simp [sealHosts, hip, eraseAdj]
    · simp [sealHosts, hip, eraseAdj]
  | cons r rest ih =>
    intro res host out hne h
    have hner : r.Ipaddress ≠ "" := hne r (by simp)
    have hnet : ∀ x ∈ rest, x.Ipaddress ≠ "" := fun x hx => hne x (by simp [hx])
    rw [reviewLoop_cons] at h
    by_cases h1 : host.Ipaddress = ""
    · rw [if_pos h1] at h
      have hmap := ih _ _ out hnet h
      rw [hmap]
      simp [Host.FromDB, eraseAdj_cons, h1, hner, List.append_assoc]
    · rw [if_neg h1] at h
      by_cases h2 : host.Ipaddress = r.Ipaddress
      · rw [if_pos h2] at h
        cases hupd : host.UpdateFromDB r with
        | none => rw [hupd] at h; exact absurd h (by simp)
        | some h3 =>
          rw [hupd] at h
          have hip3 := hostUpdate_ip host r h3 hupd
          have hmap := ih _ _ out hnet h
          rw [hmap, hip3]
          simp [eraseAdj_cons, h2, List.append_assoc]
      · rw [if_neg h2] at h
        have hmap := ih _ _ out hnet h
        rw [hmap]
        have hr2 : ¬ r.Ipaddress = host.Ipaddress := fun hc => h2 hc.symm
        simp [Host.FromDB, eraseAdj_cons, h1, h2, hner, hr2, List.append_assoc]

theorem length_filter_eq_count (A : String) :
    ∀ hs : List Host,
      (hs.filter (fun h => h.Ipaddress == A)).length = (hs.map (·.Ipaddress)).count A := by
  intro hs
  induction hs with
  | nil => simp
  | cons h t ih =>
    by_cases hA : h.Ipaddress = A
    · simp [List.filter_cons, List.count_cons, hA, ih]
    · simp [List.filter_cons, List.count_cons, hA, ih]

/-- C5 (amended): provided every record's device address is non-empty
(the empty address is the fold's internal "no current host" sentinel),
an address that occurs in two runs separated by a record with a
different address yields at least two separate `Host` entries in the
review result — non-adjacent repetitions are never merged. -/
theorem review_two_runs_two_hosts (s e : Int) (rows : List PortRow) (res : ReviewResult)
    (A b : String) (l1 l2 l3 l4 : List String)
    (hrev : Review s e rows = some res)
    (hne : ∀ r ∈ rows, r.Ipaddress ≠ "")
    (hshape : rows.map (·.Ipaddress) = l1 ++ A :: (l2 ++ b :: (l3 ++ A :: l4)))
    (hbA : b ≠ A) :
    2 ≤ (res.Hosts.filter (fun h => h.Ipaddress == A)).length := by
  obtain ⟨out, hout, hseal⟩ := review_some_elim s e rows res hrev
  have hmap := reviewLoop_mapIp rows _ _ out hne hout
  rw [hseal] at hmap
  have hA : A ≠ "" := by
    have hmem : A ∈ rows.map (·.Ipaddress) := by rw [hshape]; simp
    obtain ⟨r, hr, hrA⟩ := List.mem_map.1 hmem
    rw [← hrA]
    exact hne r hr
  rw [length_filter_eq_count]
  simp only [initReview, List.map_nil, List.nil_append] at hmap
  rw [hmap]
  simp only [if_true, List.nil_append]
  rw [hshape]
  exact count_eraseAdj_two "" A b l1 l2 l3 l4 (Ne.symm hA) hbA

/-- Counterexample to C5 as stated: with empty device addresses (allowed
by the claim's unrestricted quantification) the aggregator produces ZERO
`Host` entries for the repeated address, not two. -/
theorem review_two_runs_cex :
    (Review 0 100 rowsC5c).map
      (fun res => (res.Hosts.filter (fun h => h.Ipaddress == "")).length) = some 0 ∧
    rowsC5c.map (·.Ipaddress) = [] ++ "" :: ([] ++ "X" :: ([] ++ "" :: [])) ∧
    ("X" : String) ≠ "" := by
  exact ⟨by decide, by decide, by decide⟩

/-- Witness for C5 (amended) at a concrete input. -/
theorem review_two_runs_two_hosts_witness :
    2 ≤ (((Review 0 100 rowsC5w).getD emptyReviewResult).Hosts.filter
      (fun h => h.Ipaddress == "A")).length :=
  review_two_runs_two_hosts 0 100 rowsC5w ((Review 0 100 rowsC5w).getD emptyReviewResult)
    "A" "B" [] [] [] [] (by decide) (by decide) (by decide) (by decide)

theorem grouped_of_pairwise_le : ∀ l : List String, l.Pairwise (· ≤ ·) → Grouped l := by
  intro l
  induction l with
  | nil => intro _; trivial
  | cons a t ih =>
    intro hp
    rw [List.pairwise_cons] at hp
    refine ⟨ih hp.2, ?_⟩
    intro hmem
    cases t with
    | nil => simp at hmem
    | cons b t2 =>
      simp only [List.head?_cons, Option.some.injEq]
      rcases List.mem_cons.1 hmem with h | h
      · exact h.symm
      · have hba : b ≤ a := (List.pairwise_cons.1 hp.2).1 a h
        have hab : a ≤ b := hp.1 b (by simp)
        exact le_antisymm hba hab

theorem mem_firstAppearanceOrder :
    ∀ (l : List String) (x : String), x ∈ firstAppearanceOrder l → x ∈ l := by
  intro l
  induction l using firstAppearanceOrder.induct with
  | case1 => intro x hx; simp [firstAppearanceOrder] at hx
  | case2 a t ih =>
    intro x hx
    rw [firstAppearanceOrder] at hx
    rcases List.mem_cons.1 hx with h | h
    · simp [h]
    · have := ih x h
      have := List.mem_of_mem_filter this
      simp [this]

theorem nodup_firstAppearanceOrder : ∀ l : List String, (firstAppearanceOrder l).Nodup := by
  intro l
  induction l using firstAppearanceOrder.induct with
  | case1 => simp [firstAppearanceOrder]
  | case2 a t ih =>
    rw [firstAppearanceOrder]
    refine List.nodup_cons.2 ⟨?_, ih⟩
    intro hmem
    have := mem_firstAppearanceOrder _ _ hmem
    rw [List.mem_filter] at this
    simp at this

theorem grouped_eraseAdj_eq_fao :
    ∀ (l : List String) (prev : String), Grouped (prev :: l) →
      eraseAdj prev l = firstAppearanceOrder (l.filter (fun x => x != prev)) := by
  intro l
  induction l with
  | nil => intro prev _; simp [eraseAdj, firstAppearanceOrder]
  | cons b t ih =>
    intro prev hg
    by_cases hbp : b = prev
    · subst hbp
      rw [eraseAdj_cons, if_pos rfl]
      have hg2 : Grouped (b :: t) := ⟨hg.1.1, hg.1.2⟩
      rw [ih b hg2]
      simp [List.filter_cons]
    · rw [eraseAdj_cons, if_neg hbp]
      have hprevt : prev ∉ t := by
        intro hmem
        have := hg.2 (by simp [hmem])
        simp only [List.head?_cons, Option.some.injEq] at this
        exact hbp this
      have hfilter1 : (b :: t).filter (fun x => x != prev) = b :: t.filter (fun x => x != prev) := by
        rw [List.filter_cons_of_pos]
        simp [hbp]
      have hfilter2 : t.filter (fun x => x != prev) = t := by
        rw [List.filter_eq_self]
        intro x hx
        simp only [bne_iff_ne, ne_eq, decide_eq_true_eq]
        intro hc
        exact hprevt (hc ▸ hx)
      rw [hfilter1, hfilter2, firstAppearanceOrder]
      have hg3 : Grouped (b :: t) := hg.1
      rw [ih b hg3]

theorem grouped_eraseAdj_nil :
    ∀ l : List String, Grouped l → (∀ x ∈ l, x ≠ "") →
      eraseAdj "" l = firstAppearanceOrder l := by
  intro l hg hne
  cases l with
  | nil => simp [eraseAdj, firstAppearanceOrder]
  | cons a t =>
    rw [eraseAdj_cons, if_neg (hne a (by simp))]
    have hg2 : Grouped (a :: t) := hg
    rw [grouped_eraseAdj_eq_fao t a hg2, firstAppearanceOrder]

theorem updateFromDB_flapCount (p : PortView) (r : PortRow) (p2 : PortView)
    (hupd : p.updateFromDB r = some p2) : p2.FlapCount = p.FlapCount + 1 := by
  by_cases hne : p.IfIndex ≠ r.IfIndex
  · simp [PortView.updateFromDB, if_pos hne] at hupd
  · cases hra : r.IfAlias with
    | none =>
      simp only [PortView.updateFromDB, if_neg hne, hra] at hupd
      rcases hf : p.FirstFlapTime with _ | t1
      · simp only [hf] at hupd
        exact absurd hupd (by simp)
      · simp only [hf] at hupd
        rcases hl : p.LastFlapTime with _ | t2
        · simp only [hl] at hupd
          split_ifs at hupd with hc1
          simp only [Option.some.injEq] at hupd
          subst hupd
          rfl
        · simp only [hl] at hupd
          split_ifs at hupd with hc1 hc2 <;>
            simp only [Option.some.injEq] at hupd <;> subst hupd <;> rfl
    | some a0 =>
      simp only [PortView.updateFromDB, if_neg hne, hra] at hupd
      rcases hf : p.FirstFlapTime with _ | t1
      · simp only [hf] at hupd
        exact absurd hupd (by simp)
      · simp only [hf] at hupd
        rcases hl : p.LastFlapTime with _ | t2
        · simp only [hl] at hupd
          split_ifs at hupd with hc1
          simp only [Option.some.injEq] at hupd
          subst hupd
          rfl
        · simp only [hl] at hupd
          split_ifs at hupd with hc1 hc2 <;>
            simp only [Option.some.injEq] at hupd <;> subst hupd <;> rfl

theorem updatePortList_sum (r : PortRow) :
    ∀ (ps ps2 : List PortView), updatePortList r ps = some ps2 →
      (ps2.map (·.FlapCount)).sum = (ps.map (·.FlapCount)).sum + 1 := by
  intro ps
  induction ps with
  | nil =>
    intro ps2 h
    simp only [updatePortList, Option.some.injEq] at h
    rw [← h]
    simp [PortView.FromDB]
  | cons p t ih =>
    intro ps2 h
    rw [updatePortList] at h
    split_ifs at h with hidx
    · obtain ⟨p2, hupd, heq⟩ := Option.map_eq_some'.1 h
      rw [← heq]
      simp only [List.map_cons, List.sum_cons, updateFromDB_flapCount p r p2 hupd]
      ring
    · obtain ⟨t2, hrec, heq⟩ := Option.map_eq_some'.1 h
      rw [← heq]
      simp only [List.map_cons, List.sum_cons, ih t2 hrec]
      ring

theorem hostUpdate_sum (h : Host) (r : PortRow) (h2 : Host)
    (hupd : h.UpdateFromDB r = some h2) : portsFlapSum h2 = portsFlapSum h + 1 := by
  rw [Host.UpdateFromDB] at hupd
  split_ifs at hupd with hne
  obtain ⟨ps, hps, heq⟩ := Option.map_eq_some'.1 hupd
  rw [← heq]
  exact updatePortList_sum r h.Ports ps hps

theorem fromDB_sum (h : Host) (r : PortRow) :
    portsFlapSum (h.FromDB r) = portsFlapSum h + 1 := by
  simp [Host.FromDB, portsFlapSum, PortView.FromDB]

theorem reviewLoop_sumAt :
    ∀ (rows : List PortRow) (res : ReviewResult) (host : Host) (out : ReviewResult × Host)
      (A : String), A ≠ "" → (∀ r ∈ rows, r.Ipaddress ≠ "") →
      (host.Ipaddress = "" → portsFlapSum host = 0) →
      reviewLoop res host rows = some out →
      hostsFlapSumAt A (sealHosts out).Hosts =
        hostsFlapSumAt A res.Hosts +
        (if host.Ipaddress = A then portsFlapSum host else 0) +
        ((rows.map (·.Ipaddress)).count A : Int) := by
  intro rows
  induction rows with
  | nil =>
    intro res host out A hA _ hz h
    simp only [reviewLoop, Option.some.injEq] at h
    rw [← h]
    rw [sealHosts]
    by_cases hip : host.Ipaddress = ""
    · have : ¬ (host.Ipaddress ≠ "") := by simp [hip]
      rw [if_neg this]
      have hAne : host.Ipaddress ≠ A := by rw [hip]; exact Ne.symm hA
      simp [hostsFlapSumAt, if_neg hAne]
    · rw [if_pos hip]
      have : ∀ t : List Host, ∀ g : Host, hostsFlapSumAt A (t ++ [g]) =
          hostsFlapSumAt A t + (if g.Ipaddress = A then portsFlapSum g else 0) := by
        intro t g
        induction t with
        | nil => simp [hostsFlapSumAt]
        | cons x xs ihx => simp [hostsFlapSumAt, ihx]; ring
      simp only [this]
      simp
  | cons r rest ih =>
    intro res host out A hA hne hz h
    have hner : r.Ipaddress ≠ "" := hne r (by simp)
    have hnet : ∀ x ∈ rest, x.Ipaddress ≠ "" := fun x hx => hne x (by simp [hx])
    rw [reviewLoop_cons] at h
    rw [List.map_cons, List.count_cons]
    by_cases h1 : host.Ipaddress = ""
    · rw [if_pos h1] at h
      have hsum := ih _ _ out A hA hnet (fun hc => absurd hc (by simp [Host.FromDB, hner])) h
      rw [hsum]
      have hfip : (host.FromDB r).Ipaddress = r.Ipaddress := rfl
      have hfsum : portsFlapSum (host.FromDB r) = 1 := by
        rw [fromDB_sum, hz h1]
        ring
      rw [hfip, hfsum]
      have hAhost : ¬ host.Ipaddress = A := by rw [h1]; exact Ne.symm hA
      rw [if_neg hAhost]
      by_cases hrA : r.Ipaddress = A
      · simp [hrA]
        ring
      · have : ¬ ((r.Ipaddress == A) = true) := by simp [hrA]
        simp [hrA, this]
    · rw [if_neg h1] at h
      by_cases h2 : host.Ipaddress = r.Ipaddress
      · rw [if_pos h2] at h
        cases hupd : host.UpdateFromDB r with
        | none => rw [hupd] at h; exact absurd h (by simp)
        | some h3 =>
          rw [hupd] at h
          have hip3 := hostUpdate_ip host r h3 hupd
          have hz3 : h3.Ipaddress = "" → portsFlapSum h3 = 0 := by
            rw [hip3]; intro hc; exact absurd hc h1
          have hsum := ih _ _ out A hA hnet hz3 h
          rw [hsum, hip3, hostUpdate_sum host r h3 hupd]
          by_cases hhA : host.Ipaddress = A
          · rw [if_pos hhA, if_pos hhA]
            have : (r.Ipaddress == A) = true := by rw [← h2, hhA]; simp
            rw [if_pos this]
            push_cast
            ring
          · rw [if_neg hhA, if_neg hhA]
            have : ¬ ((r.Ipaddress == A) = true) := by
              simp only [beq_iff_eq]
              rw [← h2]
              exact hhA
            rw [if_neg this]
            push_cast
            ring
      · rw [if_neg h2] at h
        have hsum := ih _ _ out A hA hnet
          (fun hc => absurd hc (by simp [Host.FromDB, hner])) h
        rw [hsum]
        have hfip : (Host.FromDB ⟨"", "", []⟩ r).Ipaddress = r.Ipaddress := rfl
        have hfsum : portsFlapSum (Host.FromDB ⟨"", "", []⟩ r) = 1 := by
          rw [fromDB_sum]
          simp [portsFlapSum]
        rw [hfip, hfsum]
        have happ : ∀ t : List Host, ∀ g : Host, hostsFlapSumAt A (t ++ [g]) =
            hostsFlapSumAt A t + (if g.Ipaddress = A then portsFlapSum g else 0) := by
          intro t g
          induction t with
          | nil => simp [hostsFlapSumAt]
          | cons x xs ihx => simp [hostsFlapSumAt, ihx]; ring
        simp only [happ]
        by_cases hrA : r.Ipaddress = A
        · simp [hrA]
          ring
        · have : ¬ ((r.Ipaddress == A) = true) := by simp [hrA]
          simp [hrA, this]

theorem hostsFlapSumAt_zero (A : String) :
    ∀ hs : List Host, (∀ g ∈ hs, g.Ipaddress ≠ A) → hostsFlapSumAt A hs = 0 := by
  intro hs
  induction hs with
  | nil => intro _; rfl
  | cons g t ih =>
    intro hne
    rw [hostsFlapSumAt, if_neg (hne g (by simp)), ih (fun x hx => hne x (by simp [hx]))]
    ring

theorem hostsFlapSumAt_nodup :
    ∀ hs : List Host, (hs.map (·.Ipaddress)).Nodup → ∀ h ∈ hs,
      hostsFlapSumAt h.Ipaddress hs = portsFlapSum h := by
  intro hs
  induction hs with
  | nil => intro _ h hmem; simp at hmem
  | cons g t ih =>
    intro hnd h hmem
    rw [List.map_cons, List.nodup_cons] at hnd
    rcases List.mem_cons.1 hmem with hh | hh
    · subst hh
      rw [hostsFlapSumAt, if_pos rfl]
      have hzero : hostsFlapSumAt h.Ipaddress t = 0 := by
        apply hostsFlapSumAt_zero
        intro g2 hg2 hc
        exact hnd.1 (hc ▸ List.mem_map_of_mem (·.Ipaddress) hg2)
      rw [hzero]
      ring
    · have hgne : g.Ipaddress ≠ h.Ipaddress := by
        intro hc
        exact hnd.1 (hc ▸ List.mem_map_of_mem (·.Ipaddress) hh)
      rw [hostsFlapSumAt, if_neg hgne, ih hnd.2 h hh]
      ring

/-- C7 (amended): for a non-empty sorted input whose device addresses are
all non-empty, the review result lists one host per device address, in
order of first appearance, and each host's total flap count equals the
number of input records carrying its address.  (Sortedness is used only
through its consequence that equal addresses are adjacent.) -/
theorem review_grouping (s e : Int) (rows : List PortRow) (res : ReviewResult)
    (hrev : Review s e rows = some res)
    (hnonempty : rows ≠ [])
    (hips : ∀ r ∈ rows, r.Ipaddress ≠ "")
    (hsorted : (rows.map (·.Ipaddress)).Chain' (· ≤ ·)) :
    res.Hosts.map (·.Ipaddress) = firstAppearanceOrder (rows.map (·.Ipaddress)) ∧
    ∀ h ∈ res.Hosts, portsFlapSum h = ((rows.map (·.Ipaddress)).count h.Ipaddress : Int) := by
  obtain ⟨out, hout, hseal⟩ := review_some_elim s e rows res hrev
  have hmap := reviewLoop_mapIp rows _ _ out hips hout
  rw [hseal] at hmap
  simp only [initReview, List.map_nil, List.nil_append] at hmap
  rw [if_true, List.nil_append] at hmap
  have hg : Grouped (rows.map (·.Ipaddress)) :=
    grouped_of_pairwise_le _ (List.chain'_iff_pairwise.1 hsorted)
  have hnemem : ∀ x ∈ rows.map (·.Ipaddress), x ≠ "" := by
    intro x hx
    obtain ⟨r, hr, hrx⟩ := List.mem_map.1 hx
    rw [← hrx]
    exact hips r hr
  have hfao : eraseAdj "" (rows.map (·.Ipaddress)) =
      firstAppearanceOrder (rows.map (·.Ipaddress)) :=
    grouped_eraseAdj_nil _ hg hnemem
  have hmap2 : res.Hosts.map (·.Ipaddress) = firstAppearanceOrder (rows.map (·.Ipaddress)) := by
    rw [hmap, hfao]
  refine ⟨hmap2, ?_⟩
  intro h hmem
  have hipmem : h.Ipaddress ∈ rows.map (·.Ipaddress) := by
    apply mem_firstAppearanceOrder
    rw [← hmap2]
    exact List.mem_map_of_mem (·.Ipaddress) hmem
  have hA : h.Ipaddress ≠ "" := hnemem _ hipmem
  have hsum := reviewLoop_sumAt rows _ _ out h.Ipaddress hA hips
    (fun _ => by simp [portsFlapSum]) hout
  rw [hseal] at hsum
  have hinit1 : hostsFlapSumAt h.Ipaddress (initReview s e).Hosts = 0 := rfl
  have hinit2 : ((⟨"", "", []⟩ : Host).Ipaddress = h.Ipaddress) = False := by
    simp
    exact Ne.symm hA
  rw [hinit1] at hsum
  simp only [hinit2, if_false] at hsum
  have hnd : (res.Hosts.map (·.Ipaddress)).Nodup := by
    rw [hmap2]
    exact nodup_firstAppearanceOrder _
  have hext := hostsFlapSumAt_nodup res.Hosts hnd h hmem
  rw [hext] at hsum
  rw [hsum]
  ring

/-- Counterexample to C7 as stated: on a sorted non-empty input with
empty device addresses, the single emitted host (address A) carries a
total flap count of 3, while only one input record belongs to A — the
two empty-address records leak into it. -/
theorem review_grouping_cex :
    (Review 0 100 rowsC7c).map
      (fun res => res.Hosts.map (fun h => (h.Ipaddress, portsFlapSum h))) = some [("A", 3)] ∧
    (rowsC7c.filter (fun r => r.Ipaddress == "A")).length = 1 ∧
    rowsC7c ≠ [] ∧
    (rowsC7c.map (·.Ipaddress)).Chain' (· ≤ ·) := by
  refine ⟨by decide, by decide, by decide, ?_⟩
  rw [show rowsC7c.map (·.Ipaddress) = ["", "", "A"] from rfl]
  refine List.chain'_cons.2 ⟨le_refl "", ?_⟩
  refine List.chain'_pair.2 ?_
  apply le_of_lt
  rw [String.lt_iff_toList_lt]
  exact Batteries.compareOfLessAndEq_eq_lt.mp rfl

/-- Witness for C7 (amended) at a concrete input. -/
theorem review_grouping_witness :
    ((Review 0 100 rowsC7w).getD emptyReviewResult).Hosts.map (·.Ipaddress) =
      firstAppearanceOrder (rowsC7w.map (·.Ipaddress)) :=
  (review_grouping 0 100 rowsC7w ((Review 0 100 rowsC7w).getD emptyReviewResult)
    (by decide) (by decide) (by decide)
    (by
      rw [show rowsC7w.map (·.Ipaddress) = ["A", "A"] from rfl]
      exact List.chain'_pair.2 (le_refl "A"))).1

theorem exactIndex_nonneg (qStart qEnd t : Int) (h1 : qStart ≤ t) (h2 : qStart ≤ qEnd) :
    0 ≤ ((t - qStart : Int) : ℚ) / centOf qStart qEnd := by
  apply div_nonneg
  · exact_mod_cast sub_nonneg.2 h1
  · simp only [centOf]
    apply div_nonneg
    · exact_mod_cast sub_nonneg.2 h2
    · norm_num [flapChartWidth]

theorem exactIndex_le (qStart qEnd t : Int) (h1 : qStart ≤ t) (h2 : t ≤ qEnd)
    (hlt : qStart < qEnd) :
    ((t - qStart : Int) : ℚ) / centOf qStart qEnd ≤ (flapChartWidth : ℚ) - 1 := by
  have hI : (0 : ℚ) < ((qEnd - qStart : Int) : ℚ) := by exact_mod_cast sub_pos.2 hlt
  rw [centOf, div_div_eq_mul_div, div_le_iff₀ hI]
  have hst : ((t - qStart : Int) : ℚ) ≤ ((qEnd - qStart : Int) : ℚ) := by
    exact_mod_cast sub_le_sub_right h2 qStart
  calc ((t - qStart : Int) : ℚ) * ((flapChartWidth : ℚ) - 1)
      ≤ ((qEnd - qStart : Int) : ℚ) * ((flapChartWidth : ℚ) - 1) := by
        apply mul_le_mul_of_nonneg_right hst
        norm_num [flapChartWidth]
    _ = ((flapChartWidth : ℚ) - 1) * ((qEnd - qStart : Int) : ℚ) := by ring

theorem roundedIndex_bounds (qStart qEnd t x : Int) (h1 : qStart ≤ t) (h2 : t ≤ qEnd)
    (hlt : qStart < qEnd) (hx : RoundedIndex qStart qEnd t x) :
    0 ≤ x ∧ x < (flapChartWidth : Int) := by
  rw [RoundedIndex, if_pos hlt] at hx
  obtain ⟨y, hy0, hylo, hyhi, hxy⟩ := hx
  subst hxy
  constructor
  · rw [ratTrunc_eq_floor y hy0]
    exact Int.floor_nonneg.2 hy0
  · rw [ratTrunc_eq_floor y hy0, Int.floor_lt]
    have hE := exactIndex_le qStart qEnd t h1 h2 hlt
    have hy333 : y < (flapChartWidth : ℚ) := by
      calc y ≤ (((t - qStart : Int) : ℚ) / centOf qStart qEnd) * (1 + floatSlack) := hyhi
        _ ≤ ((flapChartWidth : ℚ) - 1) * (1 + floatSlack) := by
            apply mul_le_mul_of_nonneg_right hE
            norm_num [floatSlack]
        _ < (flapChartWidth : ℚ) := by norm_num [floatSlack, flapChartWidth]
    exact_mod_cast hy333

/-- C1 (amended): for any record time inside a window with `start < end`,
EVERY bucket index the compiled program can produce (any bounded-error
float64 evaluation, per `RoundedIndex`) lies in `[0, flapChartWidth - 1]`
— the timeline access never goes out of bounds.  A record with time equal
to `end` is no longer guaranteed bucket `flapChartWidth - 1`: float
rounding can place it one bucket lower (see the counterexample), and in
the degenerate `start == end` window the index is the
implementation-dependent `int(NaN)` and may be out of range. -/
theorem chartIndex_float_in_range (qStart qEnd t x : Int)
    (h1 : qStart ≤ t) (h2 : t ≤ qEnd) (hlt : qStart < qEnd)
    (hx : RoundedIndex qStart qEnd t x) :
    0 ≤ x ∧ x < (flapChartWidth : Int) :=
  roundedIndex_bounds qStart qEnd t x h1 h2 hlt hx

/-- Witness for C1 (amended) at a concrete input: the exact evaluation of
a record at `time = end` of the window `[0, 332]`. -/
theorem chartIndex_float_in_range_witness :
    0 ≤ (332 : Int) ∧ (332 : Int) < (flapChartWidth : Int) :=
  chartIndex_float_in_range 0 332 332 332 (by decide) (by decide) (by decide)
    (by
      rw [RoundedIndex, if_pos (by decide : (0 : Int) < 332)]
      refine ⟨332, by norm_num, ?_, ?_, ?_⟩
      · norm_num [centOf, flapChartWidth, floatSlack]
      · norm_num [centOf, flapChartWidth, floatSlack]
      · rw [show (332 : ℚ) = ((332 : Int) : ℚ) by norm_num, ratTrunc_intCast])

/-- Counterexample to C1 as stated: in the 25-second window `[0, 25]`,
the record at `time = end` is assigned bucket 331, not
`flapChartWidth - 1 = 332`.  `cTilde` and `yTilde` are certified (by the
strict half-ulp bounds below, ulp `2^-56` around `25/332`, ulp `2^-44`
around 332) to be the binary64 results of `25.0/332.0` and of
`25.0 / cTilde` under IEEE-754 round-to-nearest on any architecture, so
the compiled renderer computes `int(331.99999999999994...) = 331`; this
admissible evaluation is recorded by `RoundedIndex 0 25 25 331`. -/
theorem chartIndex_float_end_cex :
    ((25 : ℚ)/332 - 1/2^57 < cTilde ∧ cTilde < (25 : ℚ)/332 + 1/2^57) ∧
    ((25 : ℚ)/cTilde - 1/2^45 < yTilde ∧ yTilde < (25 : ℚ)/cTilde + 1/2^45) ∧
    yTilde < 332 ∧
    ratTrunc yTilde = 331 ∧
    RoundedIndex 0 25 25 331 ∧
    (331 : Int) ≠ (flapChartWidth : Int) - 1 := by
  have htr : ratTrunc yTilde = 331 := by
    rw [ratTrunc_eq_floor yTilde (by norm_num [yTilde])]
    rw [Int.floor_eq_iff]
    constructor
    · norm_num [yTilde]
    · norm_num [yTilde]
  refine ⟨⟨by norm_num [cTilde], by norm_num [cTilde]⟩,
    ⟨by norm_num [cTilde, yTilde], by norm_num [cTilde, yTilde]⟩,
    by norm_num [yTilde], htr, ?_, by decide⟩
  rw [RoundedIndex, if_pos (by decide : (0 : Int) < 25)]
  refine ⟨yTilde, by norm_num [yTilde], ?_, ?_, htr.symm⟩
  · norm_num [centOf, flapChartWidth, floatSlack, yTilde]
  · norm_num [centOf, flapChartWidth, floatSlack, yTilde]

theorem buildTimeLineR_some (ix : Int → Int) :
    ∀ (flaps : List Flap) (tl : List Nat) (st : Nat),
      (∀ f ∈ flaps, 0 ≤ ix f.Time ∧ ix f.Time < (flapChartWidth : Int)) →
      tl.length = flapChartWidth →
      ∃ out, buildTimeLineR ix tl st flaps = some out ∧ out.1.length = flapChartWidth := by
  intro flaps
  induction flaps with
  | nil => intro tl st _ hlen; exact ⟨(tl, st), rfl, hlen⟩
  | cons f fs ih =>
    intro tl st hb hlen
    have hf := hb f (by simp)
    have hcond : 0 ≤ ix f.Time ∧ (ix f.Time).toNat < tl.length := by
      refine ⟨hf.1, ?_⟩
      have h2 := hf.2
      omega
    simp only [buildTimeLineR]
    rw [dif_pos hcond]
    apply ih
    · intro g hg; exact hb g (by simp [hg])
    · simp [hlen]

/-- C2 (amended): for a window with `start < end` and any in-window
record list (including the empty one), the renderer aborts with no error
and returns exactly `flapChartWidth` colors, under EVERY admissible
float64 evaluation of the bucket indices; with no records at all it does
so for every window and every index assignment.  The original claim's
degenerate `start == end` window with at least one record is excluded:
there the bucket index is the implementation-dependent `int(NaN)` and the
program can abort (see the counterexample). -/
theorem flapChart_float_width (qStart qEnd : Int) (ix : Int → Int) (flaps : List Flap)
    (hlt : qStart < qEnd)
    (hw : ∀ f ∈ flaps, qStart ≤ f.Time ∧ f.Time ≤ qEnd)
    (hix : ∀ f ∈ flaps, RoundedIndex qStart qEnd f.Time (ix f.Time)) :
    (FlapChartR ix flaps).map (·.length) = some flapChartWidth ∧
    (∀ ix2 : Int → Int, (FlapChartR ix2 []).map (·.length) = some flapChartWidth) := by
  constructor
  · have hb : ∀ f ∈ flaps, 0 ≤ ix f.Time ∧ ix f.Time < (flapChartWidth : Int) := by
      intro f hf
      exact roundedIndex_bounds qStart qEnd f.Time (ix f.Time)
        (hw f hf).1 (hw f hf).2 hlt (hix f hf)
    obtain ⟨out, hout, hlen⟩ := buildTimeLineR_some ix flaps
      (List.replicate flapChartWidth EnumUnknown) EnumUnknown hb (by simp)
    rw [FlapChartR, hout]
    simp [colorize_length, hlen]
  · intro ix2
    rw [FlapChartR]
    simp only [buildTimeLineR, Option.map_some']
    simp [colorize_length]

/-- Witness for C2 (amended) at a concrete input. -/
theorem flapChart_float_width_witness :
    (FlapChartR (fun _ => 0) [⟨0, ifStatusUpCaption⟩]).map (·.length) = some flapChartWidth :=
  (flapChart_float_width 0 332 (fun _ => 0) [⟨0, ifStatusUpCaption⟩] (by decide) (by decide)
    (by
      intro f hf
      simp only [List.mem_singleton] at hf
      subst hf
      rw [RoundedIndex, if_pos (by decide : (0 : Int) < 332)]
      refine ⟨0, le_refl 0, ?_, ?_, ?_⟩
      · norm_num [centOf, flapChartWidth, floatSlack]
      · norm_num [centOf, flapChartWidth, floatSlack]
      · simp [ratTrunc])).1

/-- Counterexample to C2 as stated: in the degenerate `start == end`
window with one record the program truncates `float64` NaN; the
implementation-dependent result `-2^63` (the value amd64, the README's
documented build target, produces) is an admissible index per
`RoundedIndex`, and with it the renderer's `timeLine[x]` access goes out
of range — an aborting panic (`none`), not a `flapChartWidth`-color
chart. -/
theorem flapChart_degenerate_panic_cex :
    RoundedIndex 0 0 0 goIntNaN ∧
    FlapChartR (fun _ => goIntNaN) [⟨0, ifStatusUpCaption⟩] = none ∧
    (0 : Int) ≤ 0 ∧ [(⟨0, ifStatusUpCaption⟩ : Flap)] ≠ [] := by
  refine ⟨?_, ?_, by decide, by decide⟩
  · rw [RoundedIndex, if_neg (by decide : ¬ (0 : Int) < 0)]
    trivial
  · decide
